import Mathlib

/-!
Verification of the JWS (JSON Web Signature) engine in `src/jose/jws.rs`.
Byte strings are modelled as `List Nat` (each byte < 256).  The external
collaborators (base64url codec, JSON codec, elliptic-curve primitives,
signer and resolver capabilities) are modelled at their interface
boundary; where the repository's own code is not under `src/` the model
follows the specification's words and says so in its doc comment.
-/

namespace Infosec

/-- Byte strings: lists of naturals, each intended to be a byte (< 256). -/
abbrev Bytes := List Nat

/-- Code points of an ASCII string literal, as bytes. -/
def ascii (s : String) : Bytes := s.data.map Char.toNat

/-- Modelled from the spec: the base64url alphabet of the external
base64ct crate (`Base64UrlUnpadded`); maps a 6-bit value to its ASCII byte. -/
def b64Char (n : Nat) : Nat :=
  if n < 26 then 65 + n
  else if n < 52 then 71 + n
  else if n < 62 then n - 4
  else if n = 62 then 45
  else 95

/-- Inverse alphabet lookup: ASCII byte to 6-bit value, `none` off-alphabet. -/
def b64Val (c : Nat) : Option Nat :=
  if 65 ≤ c ∧ c ≤ 90 then some (c - 65)
  else if 97 ≤ c ∧ c ≤ 122 then some (c - 71)
  else if 48 ≤ c ∧ c ≤ 57 then some (c + 4)
  else if c = 45 then some 62
  else if c = 95 then some 63
  else none

/-- Modelled from the spec: `Base64UrlUnpadded::encode_string` (no padding). -/
def b64Encode : Bytes → Bytes
  | [] => []
  | [a] => [b64Char (a / 4), b64Char (a % 4 * 16)]
  | [a, b] => [b64Char (a / 4), b64Char (a % 4 * 16 + b / 16), b64Char (b % 16 * 4)]
  | a :: b :: c :: rest =>
      b64Char (a / 4) :: b64Char (a % 4 * 16 + b / 16) :: b64Char (b % 16 * 4 + c / 64)
        :: b64Char (c % 64) :: b64Encode rest

/-- Modelled from the spec: `Base64UrlUnpadded::decode_vec`; strict (no padding,
a lone trailing character or nonzero trailing bits are rejected). -/
def b64Decode : Bytes → Option Bytes
  | [] => some []
  | [_] => none
  | [w, x] =>
    (match b64Val w, b64Val x with
     | some vw, some vx => if vx % 16 = 0 then some [vw * 4 + vx / 16] else none
     | _, _ => none)
  | [w, x, y] =>
    (match b64Val w, b64Val x, b64Val y with
     | some vw, some vx, some vy =>
         if vy % 4 = 0 then some [vw * 4 + vx / 16, vx % 16 * 16 + vy / 4] else none
     | _, _, _ => none)
  | w :: x :: y :: z :: rest =>
    (match b64Val w, b64Val x, b64Val y, b64Val z, b64Decode rest with
     | some vw, some vx, some vy, some vz, some tail =>
         some ((vw * 4 + vx / 16) :: (vx % 16 * 16 + vy / 4) :: (vy % 4 * 64 + vz) :: tail)
     | _, _, _, _, _ => none)

/-- Big-endian bytes of a natural, fixed width `k`. -/
def natToBeBytes : Nat → Nat → Bytes
  | 0, _ => []
  | k + 1, v => natToBeBytes k (v / 256) ++ [v % 256]

/-- Big-endian interpretation of a byte string as a natural. -/
def bytesToNat (bs : Bytes) : Nat := bs.foldl (fun acc b => acc * 256 + b) 0

/-- Splitting a byte string on a separator byte, as Rust `str::split`
(an empty input yields one empty segment; the result is never empty). -/
def splitOnByte (sep : Nat) : Bytes → List Bytes
  | [] => [[]]
  | c :: rest =>
    let r := splitOnByte sep rest
    if c = sep then [] :: r
    else (c :: r.headD []) :: r.tail

/-- Right-pads with zeros (or truncates) to exactly `k` bytes. -/
def fit (k : Nat) (bs : Bytes) : Bytes := (bs ++ List.replicate k 0).take k

/-- Modelled from the spec: the `Algorithm` enum of `jose::jwa` (that file is
not under `src/`); an enumerated signature algorithm identifier with the two
supported members, serialized by the IANA JWA names. -/
inductive Algorithm where
  | Es256K
  | EdDSA
deriving DecidableEq

/-- The JWS `typ` header parameter (`Type` in the source). -/
inductive Typ where
  | Jwt
  | Openid4VciProofJwt
  | OauthAuthzReqJwt
deriving DecidableEq

/-- Cryptographic curve type (`Curve` in `lib.rs`). -/
inductive Curve where
  | Ed25519
  | Es256K
deriving DecidableEq

/-- Modelled from the spec: the external public-key data model
(`PublicKeyJwk` of `jose::jwk`, not under `src/`): a curve tag plus
base64url-encoded coordinates, the y-coordinate optional. -/
structure PublicKeyJwk where
  crv : Curve
  x : Bytes
  y : Option Bytes := none
deriving DecidableEq

/-- The type of public key material for the JWT (`Key` in the source). -/
inductive Key where
  | KeyId (kid : Bytes)
  | Jwk (jwk : PublicKeyJwk)
deriving DecidableEq

/-- JWS protected header (`Protected` in the source); `protected` is a Lean
keyword, the structure keeps the Rust name. -/
structure Protected where
  alg : Algorithm
  typ : Typ
  key : Key
  x5c : Option Bytes := none
  trust_chain : Option Bytes := none
deriving DecidableEq

/-- Returns the `kid` if the key type is `KeyId` (`Protected::kid`). -/
def Protected.kid (p : Protected) : Option Bytes :=
  match p.key with
  | Key.KeyId kid => some kid
  | Key.Jwk _ => none

/-- Returns the JWK if the key is type `Jwk` (`Protected::jwk`). -/
def Protected.jwk (p : Protected) : Option PublicKeyJwk :=
  match p.key with
  | Key.Jwk jwk => some jwk
  | Key.KeyId _ => none

/-- An entry of the `signatures` array (`Signature` in the source); the
in-memory form holds the decoded header structure (`protectedHeader`, named
`protected` in Rust) and the base64url signature string. -/
structure Signature where
  protectedHeader : Protected
  signature : Bytes
deriving DecidableEq

/-- JWS definition (`Jws` in the source). -/
structure Jws where
  payload : Bytes
  signatures : List Signature
deriving DecidableEq

/-- Modelled from the spec: `Jwt` of `jose::jwt` (not under `src/`), the
header/claims pair returned by `decode`. -/
structure Jwt (T : Type) where
  header : Protected
  claims : T

/-! ### JSON serialization of the protected header

Models `serde_json::to_vec` on `Protected`: fields in declaration order
`alg`, `typ`, the flattened key (`kid` or `jwk`), then the optional `x5c`
and `trust_chain`, which are omitted when absent. -/

/-- Lowercase hex digit byte. -/
def hexDigit (n : Nat) : Nat := if n < 10 then 48 + n else 87 + n

/-- Escapes one byte of a JSON string as serde_json does: quote and
backslash escaped, control characters by shorthand or lowercase hex. -/
def jsonEscapeChar (c : Nat) : Bytes :=
  if c = 34 then [92, 34]
  else if c = 92 then [92, 92]
  else if c = 8 then [92, 98]
  else if c = 9 then [92, 116]
  else if c = 10 then [92, 110]
  else if c = 12 then [92, 102]
  else if c = 13 then [92, 114]
  else if c < 32 then [92, 117, 48, 48, hexDigit (c / 16), hexDigit (c % 16)]
  else [c]

/-- Escapes a JSON string body byte by byte. -/
def jsonEscape : Bytes → Bytes
  | [] => []
  | c :: rest => jsonEscapeChar c ++ jsonEscape rest

/-- A JSON string literal: quote, escaped body, quote. -/
def jstrLit (s : Bytes) : Bytes := 34 :: (jsonEscape s ++ [34])

/-- Joins rendered fields with commas. -/
def joinComma : List Bytes → Bytes
  | [] => []
  | [x] => x
  | x :: y :: rest => x ++ 44 :: joinComma (y :: rest)

/-- JWA name of an algorithm, as serialized. -/
def Algorithm.toStr : Algorithm → Bytes
  | Algorithm.Es256K => ascii "ES256K"
  | Algorithm.EdDSA => ascii "EdDSA"

/-- Serialized name of a `typ` value (serde rename attributes). -/
def Typ.toStr : Typ → Bytes
  | Typ.Jwt => ascii "jwt"
  | Typ.Openid4VciProofJwt => ascii "openid4vci-proof+jwt"
  | Typ.OauthAuthzReqJwt => ascii "oauth-authz-req+jwt"

/-- Serialized name of a curve (serde rename attributes in `lib.rs`). -/
def Curve.toStr : Curve → Bytes
  | Curve.Ed25519 => ascii "Ed25519"
  | Curve.Es256K => ascii "ES256K"

/-- Modelled from the spec: JSON object for an embedded public key
(curve tag and base64url coordinate strings, `y` omitted when absent). -/
def PublicKeyJwk.fieldList (k : PublicKeyJwk) : List Bytes :=
  [jstrLit (ascii "crv") ++ 58 :: jstrLit k.crv.toStr,
   jstrLit (ascii "x") ++ 58 :: jstrLit k.x]
    ++ (match k.y with
        | some yv => [jstrLit (ascii "y") ++ 58 :: jstrLit yv]
        | none => [])

/-- Modelled from the spec: serde_json serialization of an embedded key. -/
def PublicKeyJwk.toJsonBytes (k : PublicKeyJwk) : Bytes :=
  123 :: (joinComma k.fieldList ++ [125])

/-- Rendered field list of a protected header, in serde field order. -/
def Protected.fieldList (p : Protected) : List Bytes :=
  [jstrLit (ascii "alg") ++ 58 :: jstrLit p.alg.toStr,
   jstrLit (ascii "typ") ++ 58 :: jstrLit p.typ.toStr]
    ++ (match p.key with
        | Key.KeyId kid => [jstrLit (ascii "kid") ++ 58 :: jstrLit kid]
        | Key.Jwk jwk => [jstrLit (ascii "jwk") ++ 58 :: jwk.toJsonBytes])
    ++ (match p.x5c with
        | some v => [jstrLit (ascii "x5c") ++ 58 :: jstrLit v]
        | none => [])
    ++ (match p.trust_chain with
        | some v => [jstrLit (ascii "trust_chain") ++ 58 :: jstrLit v]
        | none => [])

/-- Canonical JSON bytes of a protected header, as `serde_json::to_vec`
produces them (declaration field order, optionals omitted when absent). -/
def Protected.toJsonBytes (p : Protected) : Bytes :=
  123 :: (joinComma p.fieldList ++ [125])

/-! ### JSON parsing of the protected header

Models `serde_json::from_slice::<Protected>`.  The grammar is restricted
to the shapes a `Protected` value can inhabit — objects whose values are
strings, one-level objects (the embedded `jwk`) or `null`; any other JSON
value would be rejected by serde's typed deserialization of `Protected`
anyway, so the restriction does not change acceptance behaviour. -/

/-- Value of a hex digit byte, `none` otherwise. -/
def hexVal (c : Nat) : Option Nat :=
  if 48 ≤ c ∧ c ≤ 57 then some (c - 48)
  else if 97 ≤ c ∧ c ≤ 102 then some (c - 87)
  else if 65 ≤ c ∧ c ≤ 70 then some (c - 55)
  else none

/-- Single-character JSON escapes (the character after a backslash). -/
def unescapeChar (e : Nat) : Option Nat :=
  if e = 34 then some 34
  else if e = 92 then some 92
  else if e = 47 then some 47
  else if e = 98 then some 8
  else if e = 116 then some 9
  else if e = 110 then some 10
  else if e = 102 then some 12
  else if e = 114 then some 13
  else none

/-- Parses a JSON string body up to and including the closing quote,
returning the unescaped content and the remaining input.  Raw control
characters are rejected, as in serde_json. -/
def parseStrBody : Bytes → Option (Bytes × Bytes)
  | [] => none
  | c :: rest =>
    if c = 34 then some ([], rest)
    else if c = 92 then
      match rest with
      | [] => none
      | e :: rest2 =>
        if e = 117 then
          match rest2 with
          | h1 :: h2 :: h3 :: h4 :: rest3 =>
            (match hexVal h1, hexVal h2, hexVal h3, hexVal h4,
                parseStrBody rest3 with
             | some v1, some v2, some v3, some v4, some (s, r) =>
                 some ((((v1 * 16 + v2) * 16 + v3) * 16 + v4) :: s, r)
             | _, _, _, _, _ => none)
          | _ => none
        else
          match unescapeChar e, parseStrBody rest2 with
          | some c2, some (s, r) => some (c2 :: s, r)
          | _, _ => none
    else if c < 32 then none
    else
      match parseStrBody rest with
      | some (s, r) => some (c :: s, r)
      | none => none

/-- Skips JSON whitespace. -/
def skipWs : Bytes → Bytes
  | [] => []
  | c :: rest => if c = 32 ∨ c = 9 ∨ c = 10 ∨ c = 13 then skipWs rest else c :: rest

/-- Parses a JSON string token (leading whitespace allowed). -/
def parseJStr (input : Bytes) : Option (Bytes × Bytes) :=
  match skipWs input with
  | 34 :: rest => parseStrBody rest
  | _ => none

/-- JSON values as they can occur inside a protected header. -/
inductive JVal where
  | jstr (s : Bytes)
  | jobj (fields : List (Bytes × JVal))
  | jnull

mutual

/-- Parses one JSON value (string, object or null), fuel-bounded. -/
def parseVal : Nat → Bytes → Option (JVal × Bytes)
  | 0, _ => none
  | fuel + 1, input =>
    match skipWs input with
    | 34 :: rest =>
      (match parseStrBody rest with
       | some (s, r) => some (JVal.jstr s, r)
       | none => none)
    | 123 :: rest =>
      (match skipWs rest with
       | 125 :: r2 => some (JVal.jobj [], r2)
       | _ =>
         match parseFields fuel rest with
         | some (fs, r2) => some (JVal.jobj fs, r2)
         | none => none)
    | 110 :: 117 :: 108 :: 108 :: rest => some (JVal.jnull, rest)
    | _ => none

/-- Parses a nonempty field list after an opening brace, up to and
including the closing brace. -/
def parseFields : Nat → Bytes → Option (List (Bytes × JVal) × Bytes)
  | 0, _ => none
  | fuel + 1, input =>
    match parseJStr input with
    | none => none
    | some (k, r1) =>
      match skipWs r1 with
      | 58 :: r3 =>
        (match parseVal fuel r3 with
         | none => none
         | some (v, r4) =>
           match skipWs r4 with
           | 44 :: r5 =>
             (match parseFields fuel r5 with
              | some (fs, r6) => some ((k, v) :: fs, r6)
              | none => none)
           | 125 :: r5 => some ([(k, v)], r5)
           | _ => none)
      | _ => none

end

/-- Parses a complete JSON document (one value, then end of input up to
trailing whitespace), as `serde_json::from_slice` requires. -/
def parseJson (bs : Bytes) : Option JVal :=
  match parseVal (bs.length + 2) bs with
  | some (v, rest) => if skipWs rest = [] then some v else none
  | none => none

/-- Assoc-list lookup by byte-string key. -/
def jlookup (k : Bytes) : List (Bytes × JVal) → Option JVal
  | [] => none
  | (k2, v) :: rest => if k2 = k then some v else jlookup k rest

/-- Modelled from the spec: deserialization of an `Algorithm` name. -/
def Algorithm.fromStr (s : Bytes) : Option Algorithm :=
  if s = ascii "ES256K" then some Algorithm.Es256K
  else if s = ascii "EdDSA" then some Algorithm.EdDSA
  else none

/-- Deserialization of a `typ` name (serde rename attributes). -/
def Typ.fromStr (s : Bytes) : Option Typ :=
  if s = ascii "jwt" then some Typ.Jwt
  else if s = ascii "openid4vci-proof+jwt" then some Typ.Openid4VciProofJwt
  else if s = ascii "oauth-authz-req+jwt" then some Typ.OauthAuthzReqJwt
  else none

/-- Deserialization of a curve name; `secp256k1` is an accepted alias
for `ES256K` (serde alias attribute in `lib.rs`). -/
def Curve.fromStr (s : Bytes) : Option Curve :=
  if s = ascii "Ed25519" then some Curve.Ed25519
  else if s = ascii "ES256K" then some Curve.Es256K
  else if s = ascii "secp256k1" then some Curve.Es256K
  else none

/-- Modelled from the spec: deserialization of an embedded public key
object (curve tag, required x coordinate, optional y coordinate). -/
def PublicKeyJwk.fromFields (fs : List (Bytes × JVal)) : Option PublicKeyJwk :=
  if (fs.map Prod.fst).Nodup
      ∧ ∀ k ∈ fs.map Prod.fst, k ∈ [ascii "crv", ascii "x", ascii "y"] then
    match jlookup (ascii "crv") fs, jlookup (ascii "x") fs with
    | some (JVal.jstr crvS), some (JVal.jstr xS) =>
      (match Curve.fromStr crvS with
       | none => none
       | some crv =>
         match jlookup (ascii "y") fs with
         | none => some { crv := crv, x := xS }
         | some (JVal.jstr yS) => some { crv := crv, x := xS, y := some yS }
         | some JVal.jnull => some { crv := crv, x := xS }
         | some _ => none)
    | _, _ => none
  else none

/-- Deserialization of a `Protected` header from a parsed JSON value,
following serde derive semantics: any field order, duplicate or unknown
fields rejected (unknown fields break the flattened `Key` enum), exactly
one of `kid`/`jwk`, optional fields absent or `null`. -/
def Protected.fromJson (v : JVal) : Option Protected :=
  match v with
  | JVal.jobj fields =>
    if (fields.map Prod.fst).Nodup
        ∧ ∀ k ∈ fields.map Prod.fst,
            k ∈ [ascii "alg", ascii "typ", ascii "kid", ascii "jwk",
                 ascii "x5c", ascii "trust_chain"] then
      match jlookup (ascii "alg") fields, jlookup (ascii "typ") fields with
      | some (JVal.jstr algS), some (JVal.jstr typS) =>
        (match Algorithm.fromStr algS, Typ.fromStr typS with
         | some alg, some typ =>
           (match jlookup (ascii "kid") fields, jlookup (ascii "jwk") fields with
            | some (JVal.jstr kid), none =>
              (match jlookup (ascii "x5c") fields, jlookup (ascii "trust_chain") fields with
               | some (JVal.jstr x5cS), some (JVal.jstr tcS) =>
                 some { alg := alg, typ := typ, key := Key.KeyId kid,
                        x5c := some x5cS, trust_chain := some tcS }
               | some (JVal.jstr x5cS), none =>
                 some { alg := alg, typ := typ, key := Key.KeyId kid,
                        x5c := some x5cS }
               | none, some (JVal.jstr tcS) =>
                 some { alg := alg, typ := typ, key := Key.KeyId kid,
                        trust_chain := some tcS }
               | none, none =>
                 some { alg := alg, typ := typ, key := Key.KeyId kid }
               | _, _ => none)
            | none, some (JVal.jobj jwkFields) =>
              (match PublicKeyJwk.fromFields jwkFields with
               | none => none
               | some jwk =>
                 match jlookup (ascii "x5c") fields, jlookup (ascii "trust_chain") fields with
                 | some (JVal.jstr x5cS), some (JVal.jstr tcS) =>
                   some { alg := alg, typ := typ, key := Key.Jwk jwk,
                          x5c := some x5cS, trust_chain := some tcS }
                 | some (JVal.jstr x5cS), none =>
                   some { alg := alg, typ := typ, key := Key.Jwk jwk,
                          x5c := some x5cS }
                 | none, some (JVal.jstr tcS) =>
                   some { alg := alg, typ := typ, key := Key.Jwk jwk,
                          trust_chain := some tcS }
                 | none, none =>
                   some { alg := alg, typ := typ, key := Key.Jwk jwk }
                 | _, _ => none)
            | _, _ => none)
         | _, _ => none)
      | _, _ => none
    else none
  | _ => none

/-- Full header deserialization from bytes (`serde_json::from_slice`). -/
def Protected.fromJsonBytes (bs : Bytes) : Option Protected :=
  match parseJson bs with
  | some v => Protected.fromJson v
  | none => none

/-! ### Errors

The source uses `anyhow` string errors; the model distinguishes them by
their site of origin.  `unsupportedAlgorithm` is named by the spec but no
code path produces it; the constructor exists so spec claims about it can
be stated. -/

/-- Error kinds of the JWS engine, one per distinguishable failure site. -/
inductive Err where
  | missingKeyId
  | invalidCompact
  | headerDecode
  | headerDeser
  | sigB64
  | resolver
  | missingY
  | b64Coord
  | keyLength
  | keyMaterial
  | sigFormat
  | sigInvalid
  | unsupportedAlgorithm
  | claimsDecode
  | claimsDeser
  | noSignature
  | vmError
  | signing
deriving DecidableEq

/-- Modelled from the spec: the elliptic-curve primitives of the external
k256 and ed25519-dalek crates, at their interface boundary: point/key
parsing validity and the raw verification predicates. -/
structure Prims where
  es256kKeyValid : Bytes → Bool
  es256kVerify : Bytes → Bytes → Nat × Nat → Bool
  ed25519KeyValid : Bytes → Bool
  ed25519Verify : Bytes → Bytes → Bytes → Bool

/-- Order of the secp256k1 group. -/
def secpN : Nat :=
  115792089237316195423570985008687907852837564279074904382605163141518161494337

/-- Modelled from the spec: `ecdsa::Signature::from_slice` for secp256k1;
64 raw bytes split into big-endian scalars r and s, each required to be a
nonzero canonical scalar (in `[1, n-1]`). -/
def parseEcdsaSig (sig : Bytes) : Option (Nat × Nat) :=
  if sig.length = 64 then
    let r := bytesToNat (sig.take 32)
    let s := bytesToNat (sig.drop 32)
    if 1 ≤ r ∧ r < secpN ∧ 1 ≤ s ∧ s < secpN then some (r, s) else none
  else none

/-- Modelled from the spec: low-S normalization (`Signature::normalize_s`
followed by `unwrap_or`): if s is in the high range the algebraically
equivalent n - s is substituted, otherwise the signature is unchanged. -/
def normalizeS (rs : Nat × Nat) : Nat × Nat :=
  if rs.2 * 2 > secpN then (rs.1, secpN - rs.2) else rs

/-- Verify a message signature using the ES256K algorithm
(`PublicKeyJwk::verify_es256k`). -/
def PublicKeyJwk.verify_es256k (P : Prims) (k : PublicKeyJwk) (msg : Bytes)
    (sig : Bytes) : Except Err Unit :=
  match k.y with
  | none => Except.error Err.missingY
  | some yB64 =>
    match b64Decode k.x, b64Decode yB64 with
    | some xB, some yB =>
      let sec1 := 4 :: (xB ++ yB)
      if P.es256kKeyValid sec1 then
        match parseEcdsaSig sig with
        | some rs =>
          if P.es256kVerify sec1 msg (normalizeS rs) then Except.ok ()
          else Except.error Err.sigInvalid
        | none => Except.error Err.sigFormat
      else Except.error Err.keyMaterial
    | _, _ => Except.error Err.b64Coord

/-- Verify a message signature using the EdDSA algorithm
(`PublicKeyJwk::verify_eddsa`). -/
def PublicKeyJwk.verify_eddsa (P : Prims) (k : PublicKeyJwk) (msg : Bytes)
    (sigBytes : Bytes) : Except Err Unit :=
  match b64Decode k.x with
  | none => Except.error Err.b64Coord
  | some xB =>
    if xB.length = 32 then
      if P.ed25519KeyValid xB then
        if sigBytes.length = 64 then
          if P.ed25519Verify xB msg sigBytes then Except.ok ()
          else Except.error Err.sigInvalid
        else Except.error Err.sigFormat
      else Except.error Err.keyMaterial
    else Except.error Err.keyLength

/-- Verify the signature of the provided message using the JWK
(`PublicKeyJwk::verify`): a tagged dispatch on the key's curve. -/
def PublicKeyJwk.verify (P : Prims) (k : PublicKeyJwk) (msg : Bytes)
    (sig : Bytes) : Except Err Unit :=
  match k.crv with
  | Curve.Es256K => k.verify_es256k P msg sig
  | Curve.Ed25519 => k.verify_eddsa P msg sig

/-- One iteration of the `Jws::verify` loop over a signature entry,
additionally recording the resolver invocations it performs (the loop
body of `Jws::verify` in the source, lines 152-164). -/
def verifyEntry (P : Prims) (resolver : Bytes → Option PublicKeyJwk)
    (payload : Bytes) (s : Signature) : Except Err Unit × List Bytes :=
  match s.protectedHeader.kid with
  | none => (Except.error Err.missingKeyId, [])
  | some kid =>
    let header := b64Encode s.protectedHeader.toJsonBytes
    match b64Decode s.signature with
    | none => (Except.error Err.sigB64, [])
    | some sig =>
      match resolver kid with
      | none => (Except.error Err.resolver, [kid])
      | some jwk => (jwk.verify P (header ++ 46 :: payload) sig, [kid])

/-- The `Jws::verify` loop: entries in list order, aborting at the first
failure; the second component is the ordered list of resolver calls. -/
def verifyLoop (P : Prims) (resolver : Bytes → Option PublicKeyJwk)
    (payload : Bytes) : List Signature → Except Err Unit × List Bytes
  | [] => (Except.ok (), [])
  | s :: rest =>
    match verifyEntry P resolver payload s with
    | (Except.ok _, t) =>
      let r := verifyLoop P resolver payload rest
      (r.1, t ++ r.2)
    | (Except.error e, t) => (Except.error e, t)

/-- `Jws::verify` with its resolver-invocation trace. -/
def Jws.verifyTrace (P : Prims) (jws : Jws)
    (resolver : Bytes → Option PublicKeyJwk) : Except Err Unit × List Bytes :=
  verifyLoop P resolver jws.payload jws.signatures

/-- Verify JWS signatures (`Jws::verify`). -/
def Jws.verify (P : Prims) (jws : Jws)
    (resolver : Bytes → Option PublicKeyJwk) : Except Err Unit :=
  (jws.verifyTrace P resolver).1

/-- The external Signer capability (`Signer` trait in `lib.rs`): fallible
verification-method lookup, a fixed algorithm, fallible raw signing. -/
structure Signer where
  verificationMethod : Except Unit Bytes
  algorithm : Algorithm
  trySign : Bytes → Except Unit Bytes

/-- Create a signed JWS JSON object for the given payload (`Jws::new`).
The payload type is abstract, `ser` standing for its serde serializer. -/
def Jws.new {T : Type} (ser : T → Bytes) (typ : Typ) (payload : T)
    (signer : Signer) : Except Err Jws :=
  match signer.verificationMethod with
  | Except.error _ => Except.error Err.vmError
  | Except.ok vm =>
    let prot : Protected := { alg := signer.algorithm, typ := typ, key := Key.KeyId vm }
    let header := b64Encode prot.toJsonBytes
    let payloadB := b64Encode (ser payload)
    match signer.trySign (header ++ 46 :: payloadB) with
    | Except.error _ => Except.error Err.signing
    | Except.ok sig =>
      Except.ok { payload := payloadB,
                  signatures := [{ protectedHeader := prot,
                                   signature := b64Encode sig }] }

/-- Encode the payload and sign, returning a compact JWS (`encode`). -/
def encode {T : Type} (ser : T → Bytes) (typ : Typ) (payload : T)
    (signer : Signer) : Except Err Bytes :=
  match Jws.new ser typ payload signer with
  | Except.error e => Except.error e
  | Except.ok jws =>
    match jws.signatures.head? with
    | none => Except.error Err.noSignature
    | some s =>
      let header := b64Encode s.protectedHeader.toJsonBytes
      Except.ok (header ++ 46 :: (jws.payload ++ 46 :: s.signature))

/-- Parse a compact JWS (`Jws::from_str`): split on dots, require exactly
three segments, base64url-decode and JSON-decode the header; the payload
and signature segments are kept as opaque strings. -/
def Jws.fromStr (s : Bytes) : Except Err Jws :=
  match splitOnByte 46 s with
  | [p0, p1, p2] =>
    (match b64Decode p0 with
     | none => Except.error Err.headerDecode
     | some decoded =>
       match Protected.fromJsonBytes decoded with
       | none => Except.error Err.headerDeser
       | some prot =>
         Except.ok { payload := p1,
                     signatures := [{ protectedHeader := prot, signature := p2 }] })
  | _ => Except.error Err.invalidCompact

/-- Decode a JWT token and return the claims (`decode`); `des` stands for
the serde deserializer of the claims type. -/
def decode {T : Type} (des : Bytes → Option T) (P : Prims) (compact : Bytes)
    (resolver : Bytes → Option PublicKeyJwk) : Except Err (Jwt T) :=
  match Jws.fromStr compact with
  | Except.error e => Except.error e
  | Except.ok jws =>
    match jws.verify P resolver with
    | Except.error e => Except.error e
    | Except.ok _ =>
      match b64Decode jws.payload with
      | none => Except.error Err.claimsDecode
      | some claimBytes =>
        match des claimBytes with
        | none => Except.error Err.claimsDeser
        | some claims =>
          match jws.signatures.head? with
          | none => Except.error Err.noSignature
          | some s => Except.ok { header := s.protectedHeader, claims := claims }

/-- Options for building a JWS (`JwsBuilder`). -/
structure JwsBuilder (T : Type) where
  jwt_type : Typ
  payload : T

/-- Returns a new builder with the default `jwt` type (`JwsBuilder::new`). -/
def JwsBuilder.mkNew {T : Type} (payload0 : T) : JwsBuilder T :=
  { jwt_type := Typ.Jwt, payload := payload0 }

/-- Specify the JWT header `typ` (`JwsBuilder::jwt_type`). -/
def JwsBuilder.withJwtType {T : Type} (b : JwsBuilder T) (t : Typ) : JwsBuilder T :=
  { b with jwt_type := t }

/-- Specify the payload to be signed (`JwsBuilder::payload`). -/
def JwsBuilder.withPayload {T : Type} (b : JwsBuilder T) (p : T) : JwsBuilder T :=
  { b with payload := p }

/-- Generate the JWS (`JwsBuilder::build`); the body repeats the sign
pipeline of `Jws::new` as the source does. -/
def JwsBuilder.build {T : Type} (ser : T → Bytes) (b : JwsBuilder T)
    (signer : Signer) : Except Err Jws :=
  match signer.verificationMethod with
  | Except.error _ => Except.error Err.vmError
  | Except.ok vm =>
    let prot : Protected := { alg := signer.algorithm, typ := b.jwt_type, key := Key.KeyId vm }
    let header := b64Encode prot.toJsonBytes
    let payloadB := b64Encode (ser b.payload)
    match signer.trySign (header ++ 46 :: payloadB) with
    | Except.error _ => Except.error Err.signing
    | Except.ok sig =>
      Except.ok { payload := payloadB,
                  signatures := [{ protectedHeader := prot,
                                   signature := b64Encode sig }] }

/-- The (key, printed value bytes, parsed value) items of an embedded key. -/
def PublicKeyJwk.jItems (k : PublicKeyJwk) : List (Bytes × Bytes × JVal) :=
  [(ascii "crv", jstrLit k.crv.toStr, JVal.jstr k.crv.toStr),
   (ascii "x", jstrLit k.x, JVal.jstr k.x)]
    ++ (match k.y with
        | some yv => [(ascii "y", jstrLit yv, JVal.jstr yv)]
        | none => [])

/-- The parsed JSON field list of an embedded key. -/
def PublicKeyJwk.toFieldsJ (k : PublicKeyJwk) : List (Bytes × JVal) :=
  k.jItems.map fun it => (it.1, it.2.2)

/-- The (key, printed value bytes, parsed value) items of a header. -/
def Protected.jItems (p : Protected) : List (Bytes × Bytes × JVal) :=
  [(ascii "alg", jstrLit p.alg.toStr, JVal.jstr p.alg.toStr),
   (ascii "typ", jstrLit p.typ.toStr, JVal.jstr p.typ.toStr)]
    ++ (match p.key with
        | Key.KeyId kid => [(ascii "kid", jstrLit kid, JVal.jstr kid)]
        | Key.Jwk jwk => [(ascii "jwk", jwk.toJsonBytes, JVal.jobj jwk.toFieldsJ)])
    ++ (match p.x5c with
        | some v => [(ascii "x5c", jstrLit v, JVal.jstr v)]
        | none => [])
    ++ (match p.trust_chain with
        | some v => [(ascii "trust_chain", jstrLit v, JVal.jstr v)]
        | none => [])

/-- The parsed JSON field list of a header. -/
def Protected.toFieldsJ (p : Protected) : List (Bytes × JVal) :=
  p.jItems.map fun it => (it.1, it.2.2)

/-- The error kinds the verification loop can produce. -/
def verifyErrs : List Err :=
  [Err.missingKeyId, Err.sigB64, Err.resolver, Err.missingY, Err.b64Coord,
   Err.keyLength, Err.keyMaterial, Err.sigFormat, Err.sigInvalid]

/-- Primitives that accept everything (a degenerate but legal instantiation). -/
def truePrims : Prims :=
  { es256kKeyValid := fun _ => true, es256kVerify := fun _ _ _ => true,
    ed25519KeyValid := fun _ => true, ed25519Verify := fun _ _ _ => true }

/-- A concrete 32-byte key for the sample worlds below. -/
def key32 : Bytes := List.replicate 32 7

/-- An ideal deterministic 64-byte signature for a key and message (the
message bytes are masked to byte range so the signature is always a valid
byte string). -/
def sigEd (k m : Bytes) : Bytes := fit 64 (k ++ m.map (fun b => b % 256))

/-- Primitives of an ideal world: Ed25519 verification accepts exactly the
ideal signature of the message under the key; ES256K accepts everything. -/
def idealPrims : Prims :=
  { es256kKeyValid := fun _ => true, es256kVerify := fun _ _ _ => true,
    ed25519KeyValid := fun _ => true,
    ed25519Verify := fun k m s => s == sigEd k m }

/-- The JWK of `key32`. -/
def edJwk : PublicKeyJwk := { crv := Curve.Ed25519, x := b64Encode key32 }

/-- A resolver knowing the single identifier `k`. -/
def kResolver : Bytes → Option PublicKeyJwk :=
  fun kid => if kid = ascii "k" then some edJwk else none

/-- C1 failing input: a protected header in valid JSON whose field order
differs from the verifier re-encoding (`typ` before `alg`). -/
def c1HeaderBytes : Bytes := ascii "\x7b\x22typ\x22:\x22jwt\x22,\x22kid\x22:\x22k\x22,\x22alg\x22:\x22EdDSA\x22\x7d"

/-- The header structure the C1 bytes decode to. -/
def c1Prot : Protected :=
  { alg := Algorithm.EdDSA, typ := Typ.Jwt, key := Key.KeyId (ascii "k") }

/-- C1 payload segment. -/
def c1PayloadB : Bytes := b64Encode (ascii "\x7b\x7d")

/-- C1 header segment: the base64url of the original header bytes. -/
def c1HB : Bytes := b64Encode c1HeaderBytes

/-- C1 signing input exactly as transmitted. -/
def c1SigningInput : Bytes := c1HB ++ 46 :: c1PayloadB

/-- C1 signature over the transmitted signing input, valid in the ideal world. -/
def c1Sig : Bytes := sigEd key32 c1SigningInput

/-- The complete C1 compact token. -/
def c1Token : Bytes := c1HB ++ 46 :: (c1PayloadB ++ 46 :: b64Encode c1Sig)

/-- C2 counterexample entry: a `ByIdentifier` key with an empty identifier. -/
def c2Entry : Signature :=
  { protectedHeader := { alg := Algorithm.EdDSA, typ := Typ.Jwt, key := Key.KeyId [] },
    signature := [] }

/-- C2 witness entry: an `Embedded` (JWK) key, no identifier at all. -/
def c2wEntry : Signature :=
  { protectedHeader :=
      { alg := Algorithm.EdDSA, typ := Typ.Jwt,
        key := Key.Jwk { crv := Curve.Ed25519, x := [] } },
    signature := [] }

/-- An embedded secp256k1 key (also the C3 resolved key). -/
def esJwk : PublicKeyJwk :=
  { crv := Curve.Es256K, x := b64Encode (List.replicate 32 1),
    y := some (b64Encode (List.replicate 32 2)) }

/-- A canonical (r, s) = (1, 1) ECDSA signature encoding. -/
def esSig : Bytes := natToBeBytes 32 1 ++ natToBeBytes 32 1

/-- C3 entry: header declares EdDSA while the resolved key is secp256k1. -/
def c3Entry : Signature :=
  { protectedHeader :=
      { alg := Algorithm.EdDSA, typ := Typ.Jwt, key := Key.KeyId (ascii "k") },
    signature := b64Encode esSig }

/-- Shared header of the C5 witness entries. -/
def c5Prot : Protected :=
  { alg := Algorithm.EdDSA, typ := Typ.Jwt, key := Key.KeyId (ascii "k") }

/-- C5 witness payload segment. -/
def c5Payload : Bytes := b64Encode (ascii "\x7b\x7d")

/-- C5 witness signing input (as the verifier recomputes it). -/
def c5Input : Bytes := b64Encode c5Prot.toJsonBytes ++ 46 :: c5Payload

/-- A correctly signed C5 entry. -/
def c5S1 : Signature :=
  { protectedHeader := c5Prot, signature := b64Encode (sigEd key32 c5Input) }

/-- A cryptographically invalid C5 entry (wrong signature bytes). -/
def c5S2 : Signature :=
  { protectedHeader := c5Prot, signature := b64Encode (List.replicate 64 0) }

/-- The C5 witness envelope [s1, s2, s3] with s2 invalid. -/
def c5Jws : Jws := { payload := c5Payload, signatures := [c5S1, c5S2, c5S1] }

/-- An ideal EdDSA signer bound to identifier `k` and `key32`. -/
def edSigner : Signer :=
  { verificationMethod := Except.ok (ascii "k"), algorithm := Algorithm.EdDSA,
    trySign := fun m => Except.ok (sigEd key32 m) }

/-- An ECDSA signer bound to identifier `e`, emitting the constant (1, 1)
signature that the ideal world accepts. -/
def esSigner : Signer :=
  { verificationMethod := Except.ok (ascii "e"), algorithm := Algorithm.Es256K,
    trySign := fun _ => Except.ok esSig }

/-- A resolver knowing both sample identifiers. -/
def c6Resolver : Bytes → Option PublicKeyJwk :=
  fun kid =>
    if kid = ascii "k" then some edJwk
    else if kid = ascii "e" then some esJwk else none

/-- C7 witness primitives: ES256K accepts exactly the normalized pair (5, 7). -/
def c7Prims : Prims :=
  { es256kKeyValid := fun _ => true,
    es256kVerify := fun _ _ rs => rs == (5, 7),
    ed25519KeyValid := fun _ => true, ed25519Verify := fun _ _ _ => true }

/-- C7 witness signature bytes encoding (r, s) = (5, 7). -/
def c7Sig : Bytes := natToBeBytes 32 5 ++ natToBeBytes 32 7

/-- C8 witness key whose x coordinate decodes to 31 bytes. -/
def c8Jwk : PublicKeyJwk := { crv := Curve.Ed25519, x := b64Encode (List.replicate 31 3) }

theorem b64Val_b64Char : ∀ n, n < 64 → b64Val (b64Char n) = some n := by decide

theorem b64Char_ne_dot (n : Nat) : b64Char n ≠ 46 := by
  unfold b64Char
  split
  · omega
  · split
    · omega
    · split
      · omega
      · split <;> omega

theorem b64Char_lt (n : Nat) : b64Char n < 128 := by
  unfold b64Char
  split
  · omega
  · split
    · omega
    · split
      · omega
      · split <;> omega

theorem b64_roundtrip : ∀ bs : Bytes, (∀ b ∈ bs, b < 256) →
    b64Decode (b64Encode bs) = some bs := by
  intro bs
  induction bs using b64Encode.induct with
  | case1 => intro _; rfl
  | case2 a =>
    intro h
    have ha : a < 256 := h a (by simp)
    simp only [b64Encode, b64Decode]
    rw [b64Val_b64Char _ (by omega), b64Val_b64Char _ (by omega)]
    simp only [if_pos (by omega : a % 4 * 16 % 16 = 0)]
    have : a / 4 * 4 + a % 4 * 16 / 16 = a := by omega
    rw [this]
  | case3 a b =>
    intro h
    have ha : a < 256 := h a (by simp)
    have hb : b < 256 := h b (by simp)
    simp only [b64Encode, b64Decode]
    rw [b64Val_b64Char _ (by omega), b64Val_b64Char _ (by omega),
      b64Val_b64Char _ (by omega)]
    simp only [if_pos (by omega : b % 16 * 4 % 4 = 0)]
    have h1 : a / 4 * 4 + (a % 4 * 16 + b / 16) / 16 = a := by omega
    have h2 : (a % 4 * 16 + b / 16) % 16 * 16 + b % 16 * 4 / 4 = b := by omega
    rw [h1, h2]
  | case4 a b c rest ih =>
    intro h
    have ha : a < 256 := h a (by simp)
    have hb : b < 256 := h b (by simp)
    have hc : c < 256 := h c (by simp)
    have hrest : ∀ x ∈ rest, x < 256 := by
      intro x hx; exact h x (by simp [hx])
    simp only [b64Encode, b64Decode]
    rw [b64Val_b64Char _ (by omega), b64Val_b64Char _ (by omega),
      b64Val_b64Char _ (by omega), b64Val_b64Char _ (by omega), ih hrest]
    dsimp only
    have h1 : a / 4 * 4 + (a % 4 * 16 + b / 16) / 16 = a := by omega
    have h2 : (a % 4 * 16 + b / 16) % 16 * 16 + (b % 16 * 4 + c / 64) / 4 = b := by omega
    have h3 : (b % 16 * 4 + c / 64) % 4 * 64 + c % 64 = c := by omega
    rw [h1, h2, h3]

theorem b64Encode_no_dot : ∀ bs : Bytes, 46 ∉ b64Encode bs := by
  intro bs
  induction bs using b64Encode.induct with
  | case1 => simp [b64Encode]
  | case2 a =>
    simp only [b64Encode, List.mem_cons, List.not_mem_nil, or_false]
    push_neg
    exact ⟨(b64Char_ne_dot _).symm, (b64Char_ne_dot _).symm⟩
  | case3 a b =>
    simp only [b64Encode, List.mem_cons, List.not_mem_nil, or_false]
    push_neg
    exact ⟨(b64Char_ne_dot _).symm, (b64Char_ne_dot _).symm, (b64Char_ne_dot _).symm⟩
  | case4 a b c rest ih =>
    simp only [b64Encode, List.mem_cons]
    push_neg
    exact ⟨(b64Char_ne_dot _).symm, (b64Char_ne_dot _).symm, (b64Char_ne_dot _).symm,
      (b64Char_ne_dot _).symm, ih⟩

theorem natToBeBytes_length (k v : Nat) : (natToBeBytes k v).length = k := by
  induction k generalizing v with
  | zero => rfl
  | succ k ih => simp [natToBeBytes, ih]

theorem bytesToNat_foldl (bs : Bytes) : ∀ acc : Nat,
    List.foldl (fun acc b => acc * 256 + b) acc bs
      = acc * 256 ^ bs.length + bytesToNat bs := by
  induction bs with
  | nil => intro acc; simp [bytesToNat]
  | cons b bs ih =>
    intro acc
    have hb : bytesToNat (b :: bs)
        = List.foldl (fun acc c => acc * 256 + c) b bs := by
      simp [bytesToNat]
    simp only [List.foldl_cons, List.length_cons, hb]
    rw [ih (acc * 256 + b), ih b]
    ring

theorem bytesToNat_append (xs ys : Bytes) :
    bytesToNat (xs ++ ys) = bytesToNat xs * 256 ^ ys.length + bytesToNat ys := by
  simp only [bytesToNat, List.foldl_append]
  exact bytesToNat_foldl ys _

theorem bytesToNat_natToBeBytes (k v : Nat) :
    bytesToNat (natToBeBytes k v) = v % 256 ^ k := by
  induction k generalizing v with
  | zero => simp [natToBeBytes, bytesToNat, Nat.mod_one]
  | succ k ih =>
    simp only [natToBeBytes, bytesToNat_append, ih]
    have h1 : bytesToNat [v % 256] = v % 256 := by simp [bytesToNat]
    have h2 : (256 : Nat) ^ (k + 1) = 256 * 256 ^ k := by ring
    simp only [List.length_cons, List.length_nil, pow_one, h1, h2]
    rw [Nat.mod_mul]
    omega

theorem natToBeBytes_lt (k v : Nat) : ∀ b ∈ natToBeBytes k v, b < 256 := by
  induction k generalizing v with
  | zero => simp [natToBeBytes]
  | succ k ih =>
    intro b hb
    simp only [natToBeBytes, List.mem_append, List.mem_cons, List.not_mem_nil,
      or_false] at hb
    rcases hb with h | h
    · exact ih _ b h
    · omega

theorem splitOnByte_no_sep (sep : Nat) :
    ∀ bs : Bytes, sep ∉ bs → splitOnByte sep bs = [bs] := by
  intro bs
  induction bs with
  | nil => intro _; rfl
  | cons c rest ih =>
    intro h
    have hc : c ≠ sep := by
      intro hcc; exact h (by simp [hcc])
    have hrest : sep ∉ rest := by
      intro hr; exact h (by simp [hr])
    simp [splitOnByte, hc, ih hrest]

theorem splitOnByte_sep_cons (sep : Nat) (xs ys : Bytes) (hx : sep ∉ xs) :
    splitOnByte sep (xs ++ sep :: ys) = xs :: splitOnByte sep ys := by
  induction xs with
  | nil => simp [splitOnByte]
  | cons c rest ih =>
    have hc : c ≠ sep := by
      intro hcc; exact hx (by simp [hcc])
    have hrest : sep ∉ rest := by
      intro hr; exact hx (by simp [hr])
    simp [splitOnByte, hc, ih hrest]

theorem fit_length (k : Nat) (bs : Bytes) : (fit k bs).length = k := by
  simp [fit]

theorem fit_lt (k : Nat) (bs : Bytes) (h : ∀ b ∈ bs, b < 256) :
    ∀ b ∈ fit k bs, b < 256 := by
  intro b hb
  simp only [fit] at hb
  have := List.mem_of_mem_take hb
  simp only [List.mem_append, List.mem_replicate] at this
  rcases this with h1 | h1
  · exact h b h1
  · omega

/-! ### Round-trip lemmas for the JSON codec -/

theorem hexVal_hexDigit : ∀ n, n < 16 → hexVal (hexDigit n) = some n := by decide

theorem parseStrBody_escape (s : Bytes) :
    ∀ rest, parseStrBody (jsonEscape s ++ 34 :: rest) = some (s, rest) := by
  induction s with
  | nil =>
    intro rest
    rw [jsonEscape, List.nil_append, parseStrBody.eq_def]
    simp
  | cons c s ih =>
    intro rest
    by_cases h34 : c = 34
    · subst h34
      simp only [jsonEscape, jsonEscapeChar, List.cons_append, List.nil_append,
        if_pos rfl]
      rw [parseStrBody.eq_def]
      simp [unescapeChar, ih]
    · by_cases h92 : c = 92
      · subst h92
        norm_num only [jsonEscape, jsonEscapeChar, List.cons_append, List.nil_append]
        rw [parseStrBody.eq_def]
        simp [unescapeChar, ih]
      · by_cases h8 : c = 8
        · subst h8
          norm_num only [jsonEscape, jsonEscapeChar, List.cons_append, List.nil_append]
          rw [parseStrBody.eq_def]
          simp [unescapeChar, ih]
        · by_cases h9 : c = 9
          · subst h9
            norm_num only [jsonEscape, jsonEscapeChar, List.cons_append, List.nil_append]
            rw [parseStrBody.eq_def]
            simp [unescapeChar, ih]
          · by_cases h10 : c = 10
            · subst h10
              norm_num only [jsonEscape, jsonEscapeChar, List.cons_append, List.nil_append]
              rw [parseStrBody.eq_def]
              simp [unescapeChar, ih]
            · by_cases h12 : c = 12
              · subst h12
                norm_num only [jsonEscape, jsonEscapeChar, List.cons_append, List.nil_append]
                rw [parseStrBody.eq_def]
                simp [unescapeChar, ih]
              · by_cases h13 : c = 13
                · subst h13
                  norm_num only [jsonEscape, jsonEscapeChar, List.cons_append,
                    List.nil_append]
                  rw [parseStrBody.eq_def]
                  simp [unescapeChar, ih]
                · by_cases hc : c < 32
                  · have e0 : hexVal 48 = some 0 := rfl
                    have e1 : hexVal (hexDigit (c / 16)) = some (c / 16) :=
                      hexVal_hexDigit _ (by omega)
                    have e2 : hexVal (hexDigit (c % 16)) = some (c % 16) :=
                      hexVal_hexDigit _ (by omega)
                    simp only [jsonEscape, jsonEscapeChar, if_neg h34, if_neg h92,
                      if_neg h8, if_neg h9, if_neg h10, if_neg h12, if_neg h13,
                      if_pos hc, List.cons_append, List.nil_append]
                    rw [parseStrBody.eq_def]
                    simp [e0, e1, e2, ih]
                    omega
                  · simp only [jsonEscape, jsonEscapeChar, if_neg h34, if_neg h92,
                      if_neg h8, if_neg h9, if_neg h10, if_neg h12, if_neg h13,
                      if_neg hc, List.cons_append, List.nil_append]
                    rw [parseStrBody.eq_def]
                    simp [h34, h92, hc, ih]

theorem skipWs_34 (r : Bytes) : skipWs (34 :: r) = 34 :: r := rfl

theorem skipWs_44 (r : Bytes) : skipWs (44 :: r) = 44 :: r := rfl

theorem skipWs_58 (r : Bytes) : skipWs (58 :: r) = 58 :: r := rfl

theorem skipWs_123 (r : Bytes) : skipWs (123 :: r) = 123 :: r := rfl

theorem skipWs_125 (r : Bytes) : skipWs (125 :: r) = 125 :: r := rfl

theorem parseJStr_lit (k rest : Bytes) :
    parseJStr (jstrLit k ++ rest) = some (k, rest) := by
  have h : jstrLit k ++ rest = 34 :: (jsonEscape k ++ 34 :: rest) := by
    simp [jstrLit]
  rw [h, parseJStr, skipWs_34]
  dsimp only
  rw [parseStrBody_escape]

theorem parseVal_jstrLit (f : Nat) (s rest : Bytes) :
    parseVal (f + 1) (jstrLit s ++ rest) = some (JVal.jstr s, rest) := by
  have h : jstrLit s ++ rest = 34 :: (jsonEscape s ++ 34 :: rest) := by
    simp [jstrLit]
  rw [h, parseVal.eq_def]
  dsimp only
  rw [skipWs_34]
  dsimp only
  rw [parseStrBody_escape]

/-- Printed fields parse back: `items` pairs each field key with the
rendered bytes of its value and the value it should parse to. -/
theorem parseFields_printed (n : Nat) :
    ∀ items : List (Bytes × Bytes × JVal),
      (∀ it ∈ items, ∀ fuel rest, n ≤ fuel →
          parseVal (fuel + 1) (it.2.1 ++ rest) = some (it.2.2, rest)) →
      ∀ fuel rest, n + items.length + 1 ≤ fuel → items ≠ [] →
        parseFields fuel
          (joinComma (items.map fun it => jstrLit it.1 ++ 58 :: it.2.1) ++ 125 :: rest)
          = some (items.map fun it => (it.1, it.2.2), rest) := by
  intro items
  induction items with
  | nil => intro _ _ _ _ hne; exact absurd rfl hne
  | cons it its ih =>
    intro hval fuel rest hfuel _
    obtain ⟨k, vb, jv⟩ := it
    simp only [List.length_cons] at hfuel
    obtain ⟨f, rfl⟩ : ∃ f, fuel = f + 1 := ⟨fuel - 1, by omega⟩
    have hhead := hval (k, vb, jv) (by simp)
    obtain ⟨g, rfl⟩ : ∃ g, f = g + 1 := ⟨f - 1, by omega⟩
    match its with
    | [] =>
      have hin : joinComma ([(k, vb, jv)].map fun it => jstrLit it.1 ++ 58 :: it.2.1)
            ++ 125 :: rest
          = jstrLit k ++ (58 :: (vb ++ 125 :: rest)) := by
        simp [joinComma]
      rw [hin, parseFields.eq_def]
      dsimp only
      rw [parseJStr_lit]
      dsimp only
      rw [skipWs_58]
      dsimp only
      rw [hhead g (125 :: rest) (by omega)]
      dsimp only
      rw [skipWs_125]
      simp
    | it2 :: its2 =>
      have hin : joinComma (((k, vb, jv) :: it2 :: its2).map
              fun it => jstrLit it.1 ++ 58 :: it.2.1) ++ 125 :: rest
          = jstrLit k ++ (58 :: (vb ++ 44 ::
              (joinComma ((it2 :: its2).map fun it => jstrLit it.1 ++ 58 :: it.2.1)
                ++ 125 :: rest))) := by
        simp [joinComma]
      rw [hin, parseFields.eq_def]
      dsimp only
      rw [parseJStr_lit]
      dsimp only
      rw [skipWs_58]
      dsimp only
      rw [hhead g _ (by omega)]
      dsimp only
      rw [skipWs_44]
      dsimp only
      have hrec := ih (fun x hx => hval x (by simp [hx])) (g + 1) rest
        (by simp only [List.length_cons] at *; omega) (by simp)
      rw [hrec]
      simp

theorem jstrLit_append (k X : Bytes) :
    jstrLit k ++ X = 34 :: (jsonEscape k ++ 34 :: X) := by
  simp [jstrLit]

theorem joinComma_head_34 (it : Bytes × Bytes × JVal) (its : List (Bytes × Bytes × JVal)) :
    ∃ T, joinComma ((it :: its).map fun x => jstrLit x.1 ++ 58 :: x.2.1) = 34 :: T := by
  obtain ⟨k, vb, jv⟩ := it
  cases its with
  | nil =>
    refine ⟨jsonEscape k ++ 34 :: 58 :: vb, ?_⟩
    simp only [List.map_cons, List.map_nil, joinComma, jstrLit_append]
  | cons it2 its2 =>
    refine ⟨jsonEscape k ++ 34 :: 58 :: (vb ++ 44 ::
      joinComma ((it2 :: its2).map fun x => jstrLit x.1 ++ 58 :: x.2.1)), ?_⟩
    simp only [List.map_cons, joinComma, List.append_assoc, List.cons_append,
      jstrLit_append]

/-- A printed nonempty JSON object parses back to its field list. -/
theorem parseVal_printed_obj (n : Nat) (items : List (Bytes × Bytes × JVal))
    (hval : ∀ it ∈ items, ∀ fuel rest, n ≤ fuel →
        parseVal (fuel + 1) (it.2.1 ++ rest) = some (it.2.2, rest))
    (hne : items ≠ []) :
    ∀ fuel rest, n + items.length + 2 ≤ fuel →
      parseVal fuel
        ((123 :: (joinComma (items.map fun it => jstrLit it.1 ++ 58 :: it.2.1) ++ [125]))
          ++ rest)
        = some (JVal.jobj (items.map fun it => (it.1, it.2.2)), rest) := by
  intro fuel rest hfuel
  match items, hne with
  | it :: its, _ =>
    simp only [List.length_cons] at hfuel
    obtain ⟨f, rfl⟩ : ∃ f, fuel = f + 1 := ⟨fuel - 1, by omega⟩
    obtain ⟨T, hT⟩ := joinComma_head_34 it its
    have hin : (123 :: (joinComma ((it :: its).map fun x => jstrLit x.1 ++ 58 :: x.2.1)
          ++ [125])) ++ rest
        = 123 :: (joinComma ((it :: its).map fun x => jstrLit x.1 ++ 58 :: x.2.1)
            ++ 125 :: rest) := by
      simp
    rw [hin, parseVal.eq_def]
    dsimp only
    rw [skipWs_123]
    dsimp only
    rw [hT, List.cons_append, skipWs_34]
    dsimp only
    rw [← List.cons_append, ← hT]
    rw [parseFields_printed n (it :: its) hval f rest
      (by simp only [List.length_cons]; omega) (by simp)]

theorem jwkFieldList_eq_jItems (k : PublicKeyJwk) :
    k.fieldList = k.jItems.map fun it => jstrLit it.1 ++ 58 :: it.2.1 := by
  cases h : k.y <;> simp [PublicKeyJwk.fieldList, PublicKeyJwk.jItems, h]

theorem parseVal_printed_jwk (k : PublicKeyJwk) :
    ∀ fuel rest, 5 ≤ fuel →
      parseVal (fuel + 1) (k.toJsonBytes ++ rest)
        = some (JVal.jobj k.toFieldsJ, rest) := by
  intro fuel rest hfuel
  have hlen : k.jItems.length ≤ 3 := by
    cases h : k.y <;> simp [PublicKeyJwk.jItems, h]
  have hne : k.jItems ≠ [] := by
    cases h : k.y <;> simp [PublicKeyJwk.jItems, h]
  have hval : ∀ it ∈ k.jItems, ∀ f r, 0 ≤ f →
      parseVal (f + 1) (it.2.1 ++ r) = some (it.2.2, r) := by
    intro it hit f r _
    cases h : k.y with
    | none =>
      simp only [PublicKeyJwk.jItems, h, List.append_nil, List.mem_cons,
        List.not_mem_nil, or_false] at hit
      rcases hit with rfl | rfl <;> exact parseVal_jstrLit f _ r
    | some yv =>
      simp only [PublicKeyJwk.jItems, h, List.mem_append, List.mem_cons,
        List.not_mem_nil, or_false] at hit
      rcases hit with (rfl | rfl) | rfl <;> exact parseVal_jstrLit f _ r
  have := parseVal_printed_obj 0 k.jItems hval hne (fuel + 1) rest (by omega)
  rw [PublicKeyJwk.toJsonBytes, jwkFieldList_eq_jItems]
  exact this

theorem protFieldList_eq_jItems (p : Protected) :
    p.fieldList = p.jItems.map fun it => jstrLit it.1 ++ 58 :: it.2.1 := by
  cases hk : p.key <;> cases hx : p.x5c <;> cases ht : p.trust_chain <;>
    simp [Protected.fieldList, Protected.jItems, hk, hx, ht]

theorem Protected.jItems_length (p : Protected) : p.jItems.length ≤ 6 := by
  cases hk : p.key <;> cases hx : p.x5c <;> cases ht : p.trust_chain <;>
    simp [Protected.jItems, hk, hx, ht]

theorem parseVal_printed_protected (p : Protected) :
    ∀ fuel rest, 13 ≤ fuel →
      parseVal (fuel + 1) (p.toJsonBytes ++ rest)
        = some (JVal.jobj p.toFieldsJ, rest) := by
  intro fuel rest hfuel
  have hne : p.jItems ≠ [] := by
    cases hk : p.key <;> cases hx : p.x5c <;> cases ht : p.trust_chain <;>
      simp [Protected.jItems, hk, hx, ht]
  have hval : ∀ it ∈ p.jItems, ∀ f r, 5 ≤ f →
      parseVal (f + 1) (it.2.1 ++ r) = some (it.2.2, r) := by
    intro it hit f r hf
    have hof : ∀ s : Bytes, it = (s, jstrLit s, JVal.jstr s) →
        parseVal (f + 1) (it.2.1 ++ r) = some (it.2.2, r) := by
      rintro s rfl
      exact parseVal_jstrLit f s r
    simp only [Protected.jItems, List.mem_append, List.mem_cons,
      List.not_mem_nil, or_false] at hit
    rcases hit with (((rfl | rfl) | hk) | hx) | ht
    · exact parseVal_jstrLit f _ r
    · exact parseVal_jstrLit f _ r
    · match hkey : p.key, hk with
      | Key.KeyId kid, hk =>
        simp only [List.mem_cons, List.not_mem_nil, or_false] at hk
        subst hk
        exact parseVal_jstrLit f _ r
      | Key.Jwk jwk, hk =>
        simp only [List.mem_cons, List.not_mem_nil, or_false] at hk
        subst hk
        exact parseVal_printed_jwk jwk f r hf
    · match hx5c : p.x5c, hx with
      | some v, hx =>
        simp only [List.mem_cons, List.not_mem_nil, or_false] at hx
        subst hx
        exact parseVal_jstrLit f _ r
      | none, hx => simp at hx
    · match htc : p.trust_chain, ht with
      | some v, ht =>
        simp only [List.mem_cons, List.not_mem_nil, or_false] at ht
        subst ht
        exact parseVal_jstrLit f _ r
      | none, ht => simp at ht
  have hlen := p.jItems_length
  have := parseVal_printed_obj 5 p.jItems hval hne (fuel + 1) rest (by omega)
  rw [Protected.toJsonBytes, protFieldList_eq_jItems]
  exact this

theorem joinComma_length_ge (x : Bytes) (l : List Bytes) :
    x.length ≤ (joinComma (x :: l)).length := by
  cases l <;> simp [joinComma]

theorem fieldList_head (p : Protected) : ∃ rest, p.fieldList
    = (jstrLit (ascii "alg") ++ 58 :: jstrLit p.alg.toStr) :: rest := by
  refine ⟨(([jstrLit (ascii "typ") ++ 58 :: jstrLit p.typ.toStr]
      ++ (match p.key with
          | Key.KeyId kid => [jstrLit (ascii "kid") ++ 58 :: jstrLit kid]
          | Key.Jwk jwk => [jstrLit (ascii "jwk") ++ 58 :: jwk.toJsonBytes]))
      ++ (match p.x5c with
          | some v => [jstrLit (ascii "x5c") ++ 58 :: jstrLit v]
          | none => []))
      ++ (match p.trust_chain with
          | some v => [jstrLit (ascii "trust_chain") ++ 58 :: jstrLit v]
          | none => []), ?_⟩
  simp [Protected.fieldList]

theorem toJsonBytes_length_lb (p : Protected) : 12 ≤ p.toJsonBytes.length := by
  obtain ⟨rest, hr⟩ := fieldList_head p
  have h1 := joinComma_length_ge (jstrLit (ascii "alg") ++ 58 :: jstrLit p.alg.toStr) rest
  rw [← hr] at h1
  have h2 : 12 ≤ (jstrLit (ascii "alg") ++ 58 :: jstrLit p.alg.toStr).length := by
    cases p.alg <;> simp [jstrLit, Algorithm.toStr] <;> decide
  simp only [Protected.toJsonBytes, List.length_cons, List.length_append,
    List.length_cons, List.length_nil]
  omega

theorem parseJson_toJsonBytes (p : Protected) :
    parseJson p.toJsonBytes = some (JVal.jobj p.toFieldsJ) := by
  have hlb := toJsonBytes_length_lb p
  have h := parseVal_printed_protected p (p.toJsonBytes.length + 1) [] (by omega)
  rw [List.append_nil] at h
  rw [parseJson]
  have hfuel : p.toJsonBytes.length + 2 = p.toJsonBytes.length + 1 + 1 := rfl
  rw [hfuel, h]
  rfl

theorem algorithm_fromStr_toStr (a : Algorithm) :
    Algorithm.fromStr a.toStr = some a := by
  cases a <;> rfl

theorem typ_fromStr_toStr (t : Typ) : Typ.fromStr t.toStr = some t := by
  cases t <;> rfl

theorem curve_fromStr_toStr (c : Curve) : Curve.fromStr c.toStr = some c := by
  cases c <;> rfl

theorem PublicKeyJwk.fromFields_toFieldsJ (k : PublicKeyJwk) :
    PublicKeyJwk.fromFields k.toFieldsJ = some k := by
  obtain ⟨crv, x, y⟩ := k
  cases y with
  | none =>
    simp only [PublicKeyJwk.toFieldsJ, PublicKeyJwk.jItems, List.append_nil,
      List.map_cons, List.map_nil, PublicKeyJwk.fromFields]
    rw [if_pos (by constructor <;> decide)]
    simp +decide [jlookup, curve_fromStr_toStr]
  | some yv =>
    simp only [PublicKeyJwk.toFieldsJ, PublicKeyJwk.jItems, List.cons_append,
      List.nil_append, List.map_cons, List.map_nil, PublicKeyJwk.fromFields]
    rw [if_pos (by constructor <;> decide)]
    simp +decide [jlookup, curve_fromStr_toStr]

theorem Protected.fromJson_toFieldsJ (p : Protected) :
    Protected.fromJson (JVal.jobj p.toFieldsJ) = some p := by
  obtain ⟨alg, typ, key, x5c, tc⟩ := p
  cases key <;> cases x5c <;> cases tc <;>
    (simp only [Protected.toFieldsJ, Protected.jItems, List.cons_append,
      List.nil_append, List.append_nil, List.map_cons, List.map_nil,
      Protected.fromJson]
     rw [if_pos (by constructor <;> decide)]
     simp +decide [jlookup, algorithm_fromStr_toStr, typ_fromStr_toStr,
       PublicKeyJwk.fromFields_toFieldsJ])

theorem protected_roundtrip (p : Protected) :
    Protected.fromJsonBytes p.toJsonBytes = some p := by
  rw [Protected.fromJsonBytes, parseJson_toJsonBytes]
  exact Protected.fromJson_toFieldsJ p

theorem jsonEscapeChar_lt (c : Nat) (h : c < 256) : ∀ b ∈ jsonEscapeChar c, b < 256 := by
  intro b hb
  unfold jsonEscapeChar at hb
  split at hb
  · simp at hb; omega
  · split at hb
    · simp at hb; omega
    · split at hb
      · simp at hb; omega
      · split at hb
        · simp at hb; omega
        · split at hb
          · simp at hb; omega
          · split at hb
            · simp at hb; omega
            · split at hb
              · simp at hb; omega
              · split at hb
                · simp only [List.mem_cons, List.not_mem_nil, or_false] at hb
                  unfold hexDigit at hb
                  rcases hb with rfl | rfl | rfl | rfl | rfl | rfl
                  · omega
                  · omega
                  · omega
                  · omega
                  · split <;> omega
                  · split <;> omega
                · simp at hb; omega

theorem jsonEscape_lt (s : Bytes) (h : ∀ b ∈ s, b < 256) :
    ∀ b ∈ jsonEscape s, b < 256 := by
  induction s with
  | nil => simp [jsonEscape]
  | cons c cs ih =>
    intro b hb
    simp only [jsonEscape, List.mem_append] at hb
    rcases hb with hb | hb
    · exact jsonEscapeChar_lt c (h c (by simp)) b hb
    · exact ih (fun x hx => h x (by simp [hx])) b hb

theorem jstrLit_lt (s : Bytes) (h : ∀ b ∈ s, b < 256) :
    ∀ b ∈ jstrLit s, b < 256 := by
  intro b hb
  simp only [jstrLit, List.mem_cons, List.mem_append, List.not_mem_nil, or_false] at hb
  rcases hb with rfl | hb | rfl
  · omega
  · exact jsonEscape_lt s h b hb
  · omega

/-- Header bytes of a `Jws::new`-shaped header are valid bytes when the
verification method string is. -/
theorem toJsonBytes_keyid_lt (alg : Algorithm) (typ : Typ) (vm : Bytes)
    (h : ∀ b ∈ vm, b < 256) :
    ∀ b ∈ (Protected.toJsonBytes
        { alg := alg, typ := typ, key := Key.KeyId vm }), b < 256 := by
  intro b hb
  simp only [Protected.toJsonBytes, Protected.fieldList, List.cons_append,
    List.nil_append, List.append_nil, joinComma, List.mem_cons, List.mem_append] at hb
  have h1 : ∀ x ∈ jstrLit (ascii "alg"), x < 256 := by decide
  have h2 : ∀ x ∈ jstrLit (Algorithm.toStr alg), x < 256 := by cases alg <;> decide
  have h3 : ∀ x ∈ jstrLit (ascii "typ"), x < 256 := by decide
  have h4 : ∀ x ∈ jstrLit (Typ.toStr typ), x < 256 := by cases typ <;> decide
  have h5 : ∀ x ∈ jstrLit (ascii "kid"), x < 256 := by decide
  have h6 := jstrLit_lt vm h
  rcases hb with rfl | hb
  · omega
  rcases hb with hb | hb
  · rcases hb with (hb | rfl | hb) | rfl | (hb | rfl | hb) | rfl | hb | rfl | hb
    · exact h1 b hb
    · omega
    · exact h2 b hb
    · omega
    · exact h3 b hb
    · omega
    · exact h4 b hb
    · omega
    · exact h5 b hb
    · omega
    · exact h6 b hb
  · simp at hb; omega

theorem splitOnByte_compact (h p s : Bytes) (hh : (46 : Nat) ∉ h)
    (hp : (46 : Nat) ∉ p) (hs : (46 : Nat) ∉ s) :
    splitOnByte 46 (h ++ 46 :: (p ++ 46 :: s)) = [h, p, s] := by
  rw [splitOnByte_sep_cons 46 h _ hh, splitOnByte_sep_cons 46 p _ hp,
    splitOnByte_no_sep 46 s hs]

/-! ### Structure of the verification loop -/

theorem verifyLoop_append_ok (P : Prims) (resolver : Bytes → Option PublicKeyJwk)
    (payload : Bytes) (pre : List Signature)
    (hpre : ∀ e ∈ pre, (verifyEntry P resolver payload e).1 = Except.ok ()) :
    ∀ rest, verifyLoop P resolver payload (pre ++ rest)
      = ((verifyLoop P resolver payload rest).1,
         (pre.map fun e => (verifyEntry P resolver payload e).2).join
           ++ (verifyLoop P resolver payload rest).2) := by
  induction pre with
  | nil => intro rest; simp
  | cons e pre ih =>
    intro rest
    have h1 : (verifyEntry P resolver payload e).1 = Except.ok () := hpre e (by simp)
    rcases hE : verifyEntry P resolver payload e with ⟨r, t⟩
    rw [hE] at h1
    simp only at h1
    subst h1
    have ih2 := ih (fun x hx => hpre x (by simp [hx])) rest
    simp [verifyLoop, hE, ih2]

theorem verifyLoop_first_error (P : Prims) (resolver : Bytes → Option PublicKeyJwk)
    (payload : Bytes) (e : Signature) (rest : List Signature) (err : Err) (t : List Bytes)
    (hE : verifyEntry P resolver payload e = (Except.error err, t)) :
    verifyLoop P resolver payload (e :: rest) = (Except.error err, t) := by
  simp only [verifyLoop, hE]

theorem verifyEntry_eq_nokid (P : Prims) (resolver : Bytes → Option PublicKeyJwk)
    (payload : Bytes) (e : Signature) (hk : e.protectedHeader.kid = none) :
    verifyEntry P resolver payload e = (Except.error Err.missingKeyId, []) := by
  unfold verifyEntry
  rw [hk]

theorem verifyEntry_eq_badsig (P : Prims) (resolver : Bytes → Option PublicKeyJwk)
    (payload : Bytes) (e : Signature) (kid : Bytes)
    (hk : e.protectedHeader.kid = some kid) (hd : b64Decode e.signature = none) :
    verifyEntry P resolver payload e = (Except.error Err.sigB64, []) := by
  unfold verifyEntry
  rw [hk]
  dsimp only
  rw [hd]

theorem verifyEntry_eq_noresolve (P : Prims) (resolver : Bytes → Option PublicKeyJwk)
    (payload : Bytes) (e : Signature) (kid : Bytes) (sigB : Bytes)
    (hk : e.protectedHeader.kid = some kid) (hd : b64Decode e.signature = some sigB)
    (hr : resolver kid = none) :
    verifyEntry P resolver payload e = (Except.error Err.resolver, [kid]) := by
  unfold verifyEntry
  rw [hk]
  dsimp only
  rw [hd]
  dsimp only
  rw [hr]

theorem verifyEntry_eq_resolved (P : Prims) (resolver : Bytes → Option PublicKeyJwk)
    (payload : Bytes) (e : Signature) (kid : Bytes) (sigB : Bytes) (jwk : PublicKeyJwk)
    (hk : e.protectedHeader.kid = some kid) (hd : b64Decode e.signature = some sigB)
    (hr : resolver kid = some jwk) :
    verifyEntry P resolver payload e
      = (jwk.verify P (b64Encode e.protectedHeader.toJsonBytes ++ 46 :: payload) sigB,
         [kid]) := by
  unfold verifyEntry
  rw [hk]
  dsimp only
  rw [hd]
  dsimp only
  rw [hr]

theorem verifyEntry_ok_trace (P : Prims) (resolver : Bytes → Option PublicKeyJwk)
    (payload : Bytes) (e : Signature)
    (h : (verifyEntry P resolver payload e).1 = Except.ok ()) :
    ∃ kid, (verifyEntry P resolver payload e).2 = [kid] := by
  rcases hk : e.protectedHeader.kid with _ | kid
  · rw [verifyEntry_eq_nokid P resolver payload e hk] at h
    simp at h
  · rcases hd : b64Decode e.signature with _ | sigB
    · rw [verifyEntry_eq_badsig P resolver payload e kid hk hd] at h
      simp at h
    · rcases hr : resolver kid with _ | jwk
      · rw [verifyEntry_eq_noresolve P resolver payload e kid sigB hk hd hr] at h
        simp at h
      · rw [verifyEntry_eq_resolved P resolver payload e kid sigB jwk hk hd hr]
        exact ⟨kid, rfl⟩

theorem verifyEntry_trace_of_late_error (P : Prims)
    (resolver : Bytes → Option PublicKeyJwk) (payload : Bytes) (e : Signature)
    (err : Err) (h : (verifyEntry P resolver payload e).1 = Except.error err)
    (h1 : err ≠ Err.missingKeyId) (h2 : err ≠ Err.sigB64) :
    ∃ kid, e.protectedHeader.kid = some kid
      ∧ (verifyEntry P resolver payload e).2 = [kid] := by
  rcases hk : e.protectedHeader.kid with _ | kid
  · rw [verifyEntry_eq_nokid P resolver payload e hk] at h
    simp only at h
    exact absurd (Except.error.inj h).symm h1
  · rcases hd : b64Decode e.signature with _ | sigB
    · rw [verifyEntry_eq_badsig P resolver payload e kid hk hd] at h
      simp only at h
      exact absurd (Except.error.inj h).symm h2
    · rcases hr : resolver kid with _ | jwk
      · rw [verifyEntry_eq_noresolve P resolver payload e kid sigB hk hd hr]
        exact ⟨kid, rfl, rfl⟩
      · rw [verifyEntry_eq_resolved P resolver payload e kid sigB jwk hk hd hr]
        exact ⟨kid, rfl, rfl⟩

theorem verify_es256k_err_mem (P : Prims) (k : PublicKeyJwk)
    (msg sig : Bytes) (err : Err)
    (h : PublicKeyJwk.verify_es256k P k msg sig = Except.error err) :
    err ∈ verifyErrs := by
  unfold PublicKeyJwk.verify_es256k at h
  rcases hy : k.y with _ | yB64 <;> rw [hy] at h
  · simp_all [verifyErrs]
  · dsimp only at h
    rcases hx : b64Decode k.x with _ | xB <;>
      rcases hyb : b64Decode yB64 with _ | yB <;> rw [hx, hyb] at h <;>
      dsimp only at h
    · simp_all [verifyErrs]
    · simp_all [verifyErrs]
    · simp_all [verifyErrs]
    · split_ifs at h with hkv
      · rcases hp : parseEcdsaSig sig with _ | rs <;> rw [hp] at h <;> dsimp only at h
        · simp_all [verifyErrs]
        · split_ifs at h with hv <;> simp_all [verifyErrs]
      · simp_all [verifyErrs]

theorem verify_eddsa_err_mem (P : Prims) (k : PublicKeyJwk)
    (msg sig : Bytes) (err : Err)
    (h : PublicKeyJwk.verify_eddsa P k msg sig = Except.error err) :
    err ∈ verifyErrs := by
  unfold PublicKeyJwk.verify_eddsa at h
  rcases hx : b64Decode k.x with _ | xB <;> rw [hx] at h <;> dsimp only at h
  · simp_all [verifyErrs]
  · split_ifs at h with h32 hkv h64 hv <;> simp_all [verifyErrs]

theorem PublicKeyJwk.verify_err_mem (P : Prims) (k : PublicKeyJwk)
    (msg sig : Bytes) (err : Err)
    (h : k.verify P msg sig = Except.error err) : err ∈ verifyErrs := by
  unfold PublicKeyJwk.verify at h
  rcases hc : k.crv <;> rw [hc] at h <;> dsimp only at h
  · exact verify_eddsa_err_mem P k msg sig err h
  · exact verify_es256k_err_mem P k msg sig err h

theorem verifyEntry_err_mem (P : Prims) (resolver : Bytes → Option PublicKeyJwk)
    (payload : Bytes) (e : Signature) (err : Err)
    (h : (verifyEntry P resolver payload e).1 = Except.error err) :
    err ∈ verifyErrs := by
  rcases hk : e.protectedHeader.kid with _ | kid
  · rw [verifyEntry_eq_nokid P resolver payload e hk] at h
    simp only at h
    have h2 := Except.error.inj h
    subst h2
    decide
  · rcases hd : b64Decode e.signature with _ | sigB
    · rw [verifyEntry_eq_badsig P resolver payload e kid hk hd] at h
      simp only at h
      have h2 := Except.error.inj h
      subst h2
      decide
    · rcases hr : resolver kid with _ | jwk
      · rw [verifyEntry_eq_noresolve P resolver payload e kid sigB hk hd hr] at h
        simp only at h
        have h2 := Except.error.inj h
        subst h2
        decide
      · rw [verifyEntry_eq_resolved P resolver payload e kid sigB jwk hk hd hr] at h
        simp only at h
        exact PublicKeyJwk.verify_err_mem P jwk _ sigB err h

theorem verifyLoop_err_mem (P : Prims) (resolver : Bytes → Option PublicKeyJwk)
    (payload : Bytes) : ∀ (entries : List Signature) (err : Err),
    (verifyLoop P resolver payload entries).1 = Except.error err → err ∈ verifyErrs := by
  intro entries
  induction entries with
  | nil => intro err h; simp [verifyLoop] at h
  | cons e rest ih =>
    intro err h
    rcases hE : verifyEntry P resolver payload e with ⟨r, t⟩
    rcases r with er | u
    · rw [verifyLoop_first_error P resolver payload e rest er t hE] at h
      simp only at h
      have h2 : er = err := Except.error.inj h
      subst h2
      exact verifyEntry_err_mem P resolver payload e er (by rw [hE])
    · have hl : verifyLoop P resolver payload (e :: rest)
          = ((verifyLoop P resolver payload rest).1,
             t ++ (verifyLoop P resolver payload rest).2) := by
        simp [verifyLoop, hE]
      rw [hl] at h
      exact ih err h

/-- C3 counterexample: an envelope whose protected header declares EdDSA
while the resolver returns a secp256k1 key; verification succeeds (the
signature is es256k-valid), so the claimed UnsupportedAlgorithm failure
does not occur. -/
theorem c3_counterexample :
    Jws.verify truePrims { payload := [], signatures := [c3Entry] }
      (fun _ => some esJwk) = Except.ok () := by rfl

/-- C3 amended: the verifier dispatches on the resolved key curve alone and
never compares it with the header algorithm; no verification outcome is the
UnsupportedAlgorithm error. -/
theorem c3_no_unsupported_algorithm (P : Prims) (jws : Jws)
    (resolver : Bytes → Option PublicKeyJwk) :
    Jws.verify P jws resolver ≠ Except.error Err.unsupportedAlgorithm := by
  intro h
  have := verifyLoop_err_mem P resolver jws.payload jws.signatures
    Err.unsupportedAlgorithm h
  simp [verifyErrs] at this

/-- C3 witness: the amended theorem applied at the counterexample input. -/
theorem c3_no_unsupported_algorithm_witness :
    Jws.verify truePrims { payload := [], signatures := [c3Entry] }
      (fun _ => some esJwk) ≠ Except.error Err.unsupportedAlgorithm :=
  c3_no_unsupported_algorithm truePrims
    { payload := [], signatures := [c3Entry] } (fun _ => some esJwk)

/-- C4 counterexample: `Jws::verify` on an envelope with an empty signature
list succeeds, contradicting the claim that verification cannot succeed. -/
theorem c4_counterexample :
    Jws.verify truePrims { payload := [], signatures := [] } (fun _ => none)
      = Except.ok () := rfl

/-- C4 amended: verification of an envelope with no signature entries
succeeds vacuously, for every payload and resolver; the at-least-one-entry
requirement is not enforced by `Jws::verify`. -/
theorem c4_empty_verify_vacuous (P : Prims) (payload : Bytes)
    (resolver : Bytes → Option PublicKeyJwk) :
    Jws.verify P { payload := payload, signatures := [] } resolver
      = Except.ok () := rfl

/-- C2 counterexample: a signature entry whose key reference is
`ByIdentifier` with the empty identifier is not rejected with
MissingKeyIdentifier before resolution: the resolver is invoked once, with
the empty identifier, and the failure is the resolver error. -/
theorem c2_counterexample :
    Jws.verifyTrace truePrims { payload := [], signatures := [c2Entry] }
      (fun _ => none) = (Except.error Err.resolver, [[]]) := by rfl

/-- C2 amended: only an entry carrying no identifier at all (the Embedded
JWK variant) fails with MissingKeyIdentifier before any resolution attempt,
with the resolver invoked zero times. -/
theorem c2_embedded_short_circuit (P : Prims)
    (resolver : Bytes → Option PublicKeyJwk) (payload : Bytes)
    (jwk : PublicKeyJwk) (e : Signature) (rest : List Signature)
    (he : e.protectedHeader.key = Key.Jwk jwk) :
    Jws.verifyTrace P { payload := payload, signatures := e :: rest } resolver
      = (Except.error Err.missingKeyId, []) := by
  have hk : e.protectedHeader.kid = none := by
    unfold Protected.kid
    rw [he]
  have hE := verifyEntry_eq_nokid P resolver payload e hk
  unfold Jws.verifyTrace
  exact verifyLoop_first_error P resolver payload e rest _ _ hE

/-- C2 witness: the amended theorem applied to a concrete embedded-key
entry. -/
theorem c2_embedded_short_circuit_witness :
    Jws.verifyTrace truePrims { payload := [], signatures := [c2wEntry] }
      (fun _ => none) = (Except.error Err.missingKeyId, []) :=
  c2_embedded_short_circuit truePrims (fun _ => none) []
    { crv := Curve.Ed25519, x := [] } c2wEntry [] rfl

/-- C9: the envelope builder is behaviorally identical to the sign
pipeline: building with a given type and payload returns exactly the
envelope `Jws::new` returns, for every serializer and signer. -/
theorem c9_builder_equiv_new {T : Type} (ser : T → Bytes) (typ : Typ)
    (payload : T) (signer : Signer) :
    JwsBuilder.build ser { jwt_type := typ, payload := payload } signer
      = Jws.new ser typ payload signer := rfl

/-- C5: the verify pipeline processes signature entries strictly in list
order and aborts at the first failing entry without attempting later
entries: for any envelope split as valid prefix ++ failing entry ++ suffix,
the result is the failing entry's error regardless of the suffix, the
resolver-call trace is one call per prefix entry followed by the failing
entry's calls, each fully-verified entry contributes exactly one resolver
call, and a cryptographically failing entry (SignatureInvalid) also
contributes exactly one. -/
theorem c5_order_abort (P : Prims) (resolver : Bytes → Option PublicKeyJwk)
    (payload : Bytes) (pre post : List Signature) (s : Signature)
    (err : Err) (t : List Bytes)
    (hpre : ∀ e ∈ pre, (verifyEntry P resolver payload e).1 = Except.ok ())
    (hfail : verifyEntry P resolver payload s = (Except.error err, t)) :
    Jws.verify P { payload := payload, signatures := pre ++ s :: post } resolver
        = Except.error err
      ∧ (Jws.verifyTrace P { payload := payload, signatures := pre ++ s :: post }
          resolver).2
        = (pre.map fun e => (verifyEntry P resolver payload e).2).join ++ t
      ∧ (∀ e ∈ pre, ∃ kid, (verifyEntry P resolver payload e).2 = [kid])
      ∧ (err = Err.sigInvalid → ∃ kid, t = [kid]) := by
  have hloop := verifyLoop_append_ok P resolver payload pre hpre (s :: post)
  have hfirst := verifyLoop_first_error P resolver payload s post err t hfail
  have htr : Jws.verifyTrace P { payload := payload, signatures := pre ++ s :: post }
      resolver = verifyLoop P resolver payload (pre ++ s :: post) := rfl
  refine ⟨?_, ?_, ?_, ?_⟩
  · show (Jws.verifyTrace P { payload := payload, signatures := pre ++ s :: post }
      resolver).1 = Except.error err
    rw [htr, hloop, hfirst]
  · rw [htr, hloop, hfirst]
  · intro e he
    exact verifyEntry_ok_trace P resolver payload e (hpre e he)
  · intro herr
    subst herr
    obtain ⟨kid, _, h2⟩ := verifyEntry_trace_of_late_error P resolver payload s
      Err.sigInvalid (by rw [hfail]) (by decide) (by decide)
    rw [hfail] at h2
    exact ⟨kid, h2⟩

/-- C5 witness: for the concrete envelope [s1, s2, s3] where s2 is
cryptographically invalid, verification fails with the invalid-signature
error and the resolver is invoked exactly twice, for s1 then s2. -/
theorem c5_order_abort_witness :
    Jws.verify idealPrims
        { payload := c5Payload, signatures := [c5S1] ++ c5S2 :: [c5S1] } kResolver
        = Except.error Err.sigInvalid
      ∧ (Jws.verifyTrace idealPrims
          { payload := c5Payload, signatures := [c5S1] ++ c5S2 :: [c5S1] }
          kResolver).2 = [ascii "k", ascii "k"] := by
  have h := c5_order_abort idealPrims kResolver c5Payload [c5S1] [c5S1] c5S2
    Err.sigInvalid [ascii "k"]
    (by intro e he; simp at he; subst he; rfl) (by rfl)
  refine ⟨h.1, ?_⟩
  rw [h.2.1]
  rfl

/-- C8: in EdDSA verification, a public key x coordinate that does not
decode to exactly 32 bytes, or a signature that is not exactly 64 bytes,
is rejected with a key-material/format error (never SignatureInvalid), and
the result does not depend on the curve verification primitive: any two
primitive sets agreeing on key parsing produce the same error, so the
Ed25519 verification primitive is never invoked. -/
theorem c8_eddsa_length_enforcement (P : Prims) (k : PublicKeyJwk)
    (msg sig : Bytes)
    (hlen : (∀ xB, b64Decode k.x = some xB → xB.length ≠ 32) ∨ sig.length ≠ 64) :
    ∃ e, e ≠ Err.sigInvalid
      ∧ e ∈ [Err.b64Coord, Err.keyLength, Err.keyMaterial, Err.sigFormat]
      ∧ ∀ Q : Prims, Q.ed25519KeyValid = P.ed25519KeyValid →
          PublicKeyJwk.verify_eddsa Q k msg sig = Except.error e := by
  rcases hx : b64Decode k.x with _ | xB
  · refine ⟨Err.b64Coord, by decide, by decide, ?_⟩
    intro Q _
    unfold PublicKeyJwk.verify_eddsa
    rw [hx]
  · by_cases h32 : xB.length = 32
    · have h64 : sig.length ≠ 64 := by
        rcases hlen with hl | hl
        · exact absurd h32 (hl xB hx)
        · exact hl
      by_cases hkv : P.ed25519KeyValid xB = true
      · refine ⟨Err.sigFormat, by decide, by decide, ?_⟩
        intro Q hQ
        unfold PublicKeyJwk.verify_eddsa
        rw [hx]
        dsimp only
        rw [hQ, if_pos h32, if_pos hkv, if_neg h64]
      · refine ⟨Err.keyMaterial, by decide, by decide, ?_⟩
        intro Q hQ
        unfold PublicKeyJwk.verify_eddsa
        rw [hx]
        dsimp only
        rw [hQ, if_pos h32, if_neg hkv]
    · refine ⟨Err.keyLength, by decide, by decide, ?_⟩
      intro Q hQ
      unfold PublicKeyJwk.verify_eddsa
      rw [hx]
      dsimp only
      rw [if_neg h32]

/-- C8 witness: a 31-byte public key is rejected before the primitive, for
a concrete key and message. -/
theorem c8_eddsa_length_enforcement_witness :
    ∃ e, e ≠ Err.sigInvalid
      ∧ e ∈ [Err.b64Coord, Err.keyLength, Err.keyMaterial, Err.sigFormat]
      ∧ ∀ Q : Prims, Q.ed25519KeyValid = truePrims.ed25519KeyValid →
          PublicKeyJwk.verify_eddsa Q c8Jwk [] [] = Except.error e :=
  c8_eddsa_length_enforcement truePrims c8Jwk [] []
    (Or.inl (fun xB hxB => by
      have hh : b64Decode c8Jwk.x = some (List.replicate 31 3) := rfl
      rw [hh] at hxB
      have h2 := Option.some.inj hxB
      rw [← h2]
      decide))

theorem parseEcdsaSig_elim (sig : Bytes) (r s : Nat)
    (h : parseEcdsaSig sig = some (r, s)) :
    sig.length = 64 ∧ 1 ≤ r ∧ r < secpN ∧ 1 ≤ s ∧ s < secpN := by
  unfold parseEcdsaSig at h
  dsimp only at h
  split_ifs at h with h1 h2
  · have h3 := Option.some.inj h
    have hr : bytesToNat (sig.take 32) = r := congrArg Prod.fst h3
    have hs : bytesToNat (sig.drop 32) = s := congrArg Prod.snd h3
    rw [hr, hs] at h2
    exact ⟨h1, h2.1, h2.2.1, h2.2.2.1, h2.2.2.2⟩
  all_goals simp at h

theorem parseEcdsaSig_mk (r s : Nat) (hr1 : 1 ≤ r) (hr2 : r < secpN)
    (hs1 : 1 ≤ s) (hs2 : s < secpN) :
    parseEcdsaSig (natToBeBytes 32 r ++ natToBeBytes 32 s) = some (r, s) := by
  have hlr := natToBeBytes_length 32 r
  have hls := natToBeBytes_length 32 s
  have hlen : (natToBeBytes 32 r ++ natToBeBytes 32 s).length = 64 := by
    simp [hlr, hls]
  have htake : (natToBeBytes 32 r ++ natToBeBytes 32 s).take 32 = natToBeBytes 32 r := by
    have h := List.take_left (natToBeBytes 32 r) (natToBeBytes 32 s)
    rw [hlr] at h
    exact h
  have hdrop : (natToBeBytes 32 r ++ natToBeBytes 32 s).drop 32 = natToBeBytes 32 s := by
    have h := List.drop_left (natToBeBytes 32 r) (natToBeBytes 32 s)
    rw [hlr] at h
    exact h
  have hbig : secpN < 256 ^ 32 := by decide
  have hbr : bytesToNat (natToBeBytes 32 r) = r := by
    rw [bytesToNat_natToBeBytes]
    exact Nat.mod_eq_of_lt (by omega)
  have hbs : bytesToNat (natToBeBytes 32 s) = s := by
    rw [bytesToNat_natToBeBytes]
    exact Nat.mod_eq_of_lt (by omega)
  unfold parseEcdsaSig
  rw [if_pos hlen]
  dsimp only
  rw [htake, hdrop, hbr, hbs]
  rw [if_pos ⟨hr1, hr2, hs1, hs2⟩]

theorem normalizeS_neg (r s : Nat) (hs1 : 1 ≤ s) (hs2 : s < secpN) :
    normalizeS (r, secpN - s) = normalizeS (r, s) := by
  have hodd : secpN % 2 = 1 := by decide
  unfold normalizeS
  by_cases hh : s * 2 > secpN
  · rw [if_neg (by dsimp only; omega), if_pos (by dsimp only; exact hh)]
  · rw [if_pos (by dsimp only; omega), if_neg (by dsimp only; exact hh)]
    have : secpN - (secpN - s) = s := by omega
    rw [this]

/-- C7: ECDSA malleability tolerance: if a 64-byte signature encoding
(r, s) verifies under ES256K, then the alternate encoding (r, n - s) over
the same message and key also verifies, because the verifier normalizes to
low-S form before invoking the primitive. -/
theorem c7_malleability (P : Prims) (k : PublicKeyJwk) (msg sig : Bytes)
    (r s : Nat) (hparse : parseEcdsaSig sig = some (r, s))
    (hok : PublicKeyJwk.verify_es256k P k msg sig = Except.ok ()) :
    PublicKeyJwk.verify_es256k P k msg
      (natToBeBytes 32 r ++ natToBeBytes 32 (secpN - s)) = Except.ok () := by
  obtain ⟨hlen, hr1, hr2, hs1, hs2⟩ := parseEcdsaSig_elim sig r s hparse
  have hmk := parseEcdsaSig_mk r (secpN - s) hr1 hr2 (by omega) (by omega)
  unfold PublicKeyJwk.verify_es256k at hok ⊢
  rcases hy : k.y with _ | yB64 <;> rw [hy] at hok
  · simp at hok
  · dsimp only at hok ⊢
    rcases hxx : b64Decode k.x with _ | xB <;>
      rcases hyy : b64Decode yB64 with _ | yB <;> rw [hxx, hyy] at hok <;>
      dsimp only at hok ⊢
    · simp at hok
    · simp at hok
    · simp at hok
    · rw [hparse] at hok
      rw [hmk]
      dsimp only at hok ⊢
      rw [normalizeS_neg r s hs1 hs2]
      split_ifs at hok with hkv hv
      case pos => rw [if_pos hkv, if_pos hv]
      all_goals simp at hok

/-- C7 witness: the malleability theorem at a concrete key, message and
signature (r, s) = (5, 7) under primitives accepting exactly that
normalized pair. -/
theorem c7_malleability_witness :
    PublicKeyJwk.verify_es256k c7Prims esJwk (ascii "m")
      (natToBeBytes 32 5 ++ natToBeBytes 32 (secpN - 7)) = Except.ok () :=
  c7_malleability c7Prims esJwk (ascii "m") c7Sig 5 7 (by rfl) (by rfl)

/-- C1 (code bug, failing input): the compact token `c1Token` carries a
header segment whose JSON field order is `typ`, `kid`, `alg`.  Parsing
succeeds; the transmitted signature is valid over the exact transmitted
signing input (the ideal Ed25519 primitive accepts it); the verifier
re-serializes the decoded header to different bytes; and decoding
therefore fails with the invalid-signature error, although per the claim
(and RFC 7515) it must succeed using the retained original header bytes. -/
theorem c1_header_reencoding_bug :
    Jws.fromStr c1Token
        = Except.ok { payload := c1PayloadB,
                      signatures := [⟨c1Prot, b64Encode c1Sig⟩] }
      ∧ idealPrims.ed25519Verify key32 c1SigningInput c1Sig = true
      ∧ b64Encode c1Prot.toJsonBytes ≠ c1HB
      ∧ decode some idealPrims c1Token kResolver
          = Except.error Err.sigInvalid :=
  ⟨by rfl, by rfl, by decide, by rfl⟩

theorem Jws.new_sig_len {T : Type} (ser : T → Bytes) (typ : Typ) (p : T)
    (signer : Signer) (jws : Jws) (h : Jws.new ser typ p signer = Except.ok jws) :
    jws.signatures.length = 1 := by
  unfold Jws.new at h
  split at h
  · simp at h
  · dsimp only at h
    split at h
    · simp at h
    · have h2 := Except.ok.inj h
      rw [← h2]
      rfl

theorem Jws.fromStr_sig_len (s : Bytes) (jws : Jws)
    (h : Jws.fromStr s = Except.ok jws) : jws.signatures.length = 1 := by
  unfold Jws.fromStr at h
  split at h
  · split at h
    · simp at h
    · split at h
      · simp at h
      · have h2 := Except.ok.inj h
        rw [← h2]
        rfl
  · simp at h

theorem JwsBuilder.build_sig_len {T : Type} (ser : T → Bytes) (b : JwsBuilder T)
    (signer : Signer) (jws : Jws)
    (h : JwsBuilder.build ser b signer = Except.ok jws) :
    jws.signatures.length = 1 := by
  unfold JwsBuilder.build at h
  split at h
  · simp at h
  · dsimp only at h
    split at h
    · simp at h
    · have h2 := Except.ok.inj h
      rw [← h2]
      rfl

theorem Jws.new_error {T : Type} (ser : T → Bytes) (typ : Typ) (p : T)
    (signer : Signer) (e : Err) (h : Jws.new ser typ p signer = Except.error e) :
    e = Err.vmError ∨ e = Err.signing := by
  unfold Jws.new at h
  split at h
  · exact Or.inl (Except.error.inj h).symm
  · dsimp only at h
    split at h
    · exact Or.inr (Except.error.inj h).symm
    · simp at h

theorem Jws.fromStr_error (s : Bytes) (e : Err)
    (h : Jws.fromStr s = Except.error e) :
    e = Err.invalidCompact ∨ e = Err.headerDecode ∨ e = Err.headerDeser := by
  unfold Jws.fromStr at h
  split at h
  · split at h
    · exact Or.inr (Or.inl (Except.error.inj h).symm)
    · split at h
      · exact Or.inr (Or.inr (Except.error.inj h).symm)
      · simp at h
  · exact Or.inl (Except.error.inj h).symm

/-- C10: every envelope produced by the sign pipeline, the builder or
compact parsing has exactly one signature entry, and consequently the
"no signature found" branches are unreachable: encode and decode never
return that error. -/
theorem c10_single_signature :
    (∀ (T : Type) (ser : T → Bytes) (typ : Typ) (p : T) (signer : Signer) (jws : Jws),
        Jws.new ser typ p signer = Except.ok jws → jws.signatures.length = 1)
    ∧ (∀ (s : Bytes) (jws : Jws),
        Jws.fromStr s = Except.ok jws → jws.signatures.length = 1)
    ∧ (∀ (T : Type) (ser : T → Bytes) (b : JwsBuilder T) (signer : Signer) (jws : Jws),
        JwsBuilder.build ser b signer = Except.ok jws → jws.signatures.length = 1)
    ∧ (∀ (T : Type) (ser : T → Bytes) (typ : Typ) (p : T) (signer : Signer),
        encode ser typ p signer ≠ Except.error Err.noSignature)
    ∧ (∀ (T : Type) (des : Bytes → Option T) (P : Prims) (compact : Bytes)
        (resolver : Bytes → Option PublicKeyJwk),
        decode des P compact resolver ≠ Except.error Err.noSignature) := by
  refine ⟨fun T ser typ p signer jws h => Jws.new_sig_len ser typ p signer jws h,
    fun s jws h => Jws.fromStr_sig_len s jws h,
    fun T ser b signer jws h => JwsBuilder.build_sig_len ser b signer jws h,
    ?_, ?_⟩
  · intro T ser typ p signer h
    unfold encode at h
    rcases hnew : Jws.new ser typ p signer with e | jws <;> rw [hnew] at h
    · dsimp only at h
      have h2 := Except.error.inj h
      subst h2
      rcases Jws.new_error ser typ p signer _ hnew with h3 | h3 <;> exact absurd h3 (by decide)
    · dsimp only at h
      have hlen := Jws.new_sig_len ser typ p signer jws hnew
      rcases hsig : jws.signatures with _ | ⟨s1, rest⟩
      · rw [hsig] at hlen
        simp at hlen
      · rw [hsig] at h
        simp at h
  · intro T des P compact resolver h
    unfold decode at h
    rcases hfs : Jws.fromStr compact with e | jws <;> rw [hfs] at h
    · dsimp only at h
      have h2 := Except.error.inj h
      subst h2
      rcases Jws.fromStr_error compact _ hfs with h3 | h3 | h3 <;> exact absurd h3 (by decide)
    · dsimp only at h
      rcases hv : jws.verify P resolver with ev | u <;> rw [hv] at h
      · dsimp only at h
        have h2 := Except.error.inj h
        subst h2
        have hm := verifyLoop_err_mem P resolver jws.payload jws.signatures
          Err.noSignature hv
        simp [verifyErrs] at hm
      · dsimp only at h
        rcases hbd : b64Decode jws.payload with _ | cb <;> rw [hbd] at h <;> dsimp only at h
        · exact absurd (Except.error.inj h) (by decide)
        · rcases hdes : des cb with _ | cl <;> rw [hdes] at h <;> dsimp only at h
          · exact absurd (Except.error.inj h) (by decide)
          · have hlen := Jws.fromStr_sig_len compact jws hfs
            rcases hsig : jws.signatures with _ | ⟨s1, rest⟩
            · rw [hsig] at hlen
              simp at hlen
            · rw [hsig] at h
              simp at h

/-- C10 witness: the single-signature facts and the unreachability of the
no-signature error, at concrete inputs. -/
theorem c10_single_signature_witness :
    (∃ jws, Jws.new (fun t : Bytes => t) Typ.Jwt [] edSigner = Except.ok jws
       ∧ jws.signatures.length = 1)
    ∧ encode (fun t : Bytes => t) Typ.Jwt [] edSigner ≠ Except.error Err.noSignature
    ∧ decode some truePrims [] (fun _ => none) ≠ Except.error Err.noSignature := by
  refine ⟨⟨_, rfl, ?_⟩, ?_, ?_⟩
  · exact c10_single_signature.1 Bytes (fun t => t) Typ.Jwt [] edSigner _ rfl
  · exact c10_single_signature.2.2.2.1 Bytes (fun t => t) Typ.Jwt [] edSigner
  · exact c10_single_signature.2.2.2.2 Bytes some truePrims [] (fun _ => none)

theorem decode_of_wellformed {T : Type} (des : Bytes → Option T) (P : Prims)
    (resolver : Bytes → Option PublicKeyJwk) (prot : Protected) (vm : Bytes)
    (payloadBytes sigBytes : Bytes) (claims : T) (jwk : PublicKeyJwk)
    (hkid : prot.kid = some vm)
    (hhv : ∀ b ∈ prot.toJsonBytes, b < 256)
    (hpv : ∀ b ∈ payloadBytes, b < 256)
    (hsv : ∀ b ∈ sigBytes, b < 256)
    (hres : resolver vm = some jwk)
    (hverify : PublicKeyJwk.verify P jwk
        (b64Encode prot.toJsonBytes ++ 46 :: b64Encode payloadBytes) sigBytes
        = Except.ok ())
    (hdes : des payloadBytes = some claims) :
    decode des P (b64Encode prot.toJsonBytes ++ 46 ::
        (b64Encode payloadBytes ++ 46 :: b64Encode sigBytes)) resolver
      = Except.ok { header := prot, claims := claims } := by
  have hsplit := splitOnByte_compact (b64Encode prot.toJsonBytes)
    (b64Encode payloadBytes) (b64Encode sigBytes)
    (b64Encode_no_dot _) (b64Encode_no_dot _) (b64Encode_no_dot _)
  have hhdr : b64Decode (b64Encode prot.toJsonBytes) = some prot.toJsonBytes :=
    b64_roundtrip _ hhv
  have hfrom : Jws.fromStr (b64Encode prot.toJsonBytes ++ 46 ::
      (b64Encode payloadBytes ++ 46 :: b64Encode sigBytes))
      = Except.ok { payload := b64Encode payloadBytes,
                    signatures := [⟨prot, b64Encode sigBytes⟩] } := by
    unfold Jws.fromStr
    rw [hsplit]
    dsimp only
    rw [hhdr]
    dsimp only
    rw [protected_roundtrip prot]
  have hsd : b64Decode (b64Encode sigBytes) = some sigBytes := b64_roundtrip _ hsv
  have hE := verifyEntry_eq_resolved P resolver (b64Encode payloadBytes)
    ⟨prot, b64Encode sigBytes⟩ vm sigBytes jwk hkid hsd hres
  dsimp only at hE
  rw [hverify] at hE
  have hver : Jws.verify P
      { payload := b64Encode payloadBytes,
        signatures := [⟨prot, b64Encode sigBytes⟩] } resolver = Except.ok () := by
    show (verifyLoop P resolver (b64Encode payloadBytes)
      [⟨prot, b64Encode sigBytes⟩]).1 = Except.ok ()
    simp [verifyLoop, hE]
  unfold decode
  rw [hfrom]
  dsimp only
  rw [hver]
  dsimp only
  rw [b64_roundtrip payloadBytes hpv]
  dsimp only
  rw [hdes]
  dsimp only [List.head?]

/-- C6: round trip: for all payload values and envelope types, and for a
signer/resolver pair sharing matching key material (the resolver maps the
signer verification method to a key under which the signer signatures
verify), decoding the encoded compact token succeeds and yields the
original payload value; the hypothesis set is algorithm-generic and the
witness instantiates it for both the EdDSA and the ECDSA-secp256k1
sample signers. -/
theorem c6_round_trip {T : Type} (ser : T → Bytes) (des : Bytes → Option T)
    (P : Prims) (typ : Typ) (payloadV : T) (signer : Signer)
    (resolver : Bytes → Option PublicKeyJwk)
    (vm : Bytes) (sigF : Bytes → Bytes) (jwk : PublicKeyJwk)
    (hserdes : des (ser payloadV) = some payloadV)
    (hvm : signer.verificationMethod = Except.ok vm)
    (hsign : ∀ m, signer.trySign m = Except.ok (sigF m))
    (hres : resolver vm = some jwk)
    (hmatch : ∀ m, PublicKeyJwk.verify P jwk m (sigF m) = Except.ok ())
    (hpayload : ∀ b ∈ ser payloadV, b < 256)
    (hvmb : ∀ b ∈ vm, b < 256)
    (hsig : ∀ m, ∀ b ∈ sigF m, b < 256) :
    ∃ out, encode ser typ payloadV signer = Except.ok out
      ∧ ∃ jwt : Jwt T, decode des P out resolver = Except.ok jwt
          ∧ jwt.claims = payloadV := by
  have hnew : Jws.new ser typ payloadV signer
      = Except.ok
          { payload := b64Encode (ser payloadV),
            signatures := [⟨{ alg := signer.algorithm, typ := typ, key := Key.KeyId vm },
              b64Encode (sigF (b64Encode (Protected.toJsonBytes
                  { alg := signer.algorithm, typ := typ, key := Key.KeyId vm })
                ++ 46 :: b64Encode (ser payloadV)))⟩] } := by
    unfold Jws.new
    rw [hvm]
    dsimp only
    rw [hsign]
  have henc : encode ser typ payloadV signer
      = Except.ok (b64Encode (Protected.toJsonBytes
            { alg := signer.algorithm, typ := typ, key := Key.KeyId vm })
          ++ 46 :: (b64Encode (ser payloadV)
            ++ 46 :: b64Encode (sigF (b64Encode (Protected.toJsonBytes
                { alg := signer.algorithm, typ := typ, key := Key.KeyId vm })
              ++ 46 :: b64Encode (ser payloadV))))) := by
    unfold encode
    rw [hnew]
    rfl
  refine ⟨_, henc, ?_⟩
  have hdec := decode_of_wellformed des P resolver
    { alg := signer.algorithm, typ := typ, key := Key.KeyId vm } vm
    (ser payloadV)
    (sigF (b64Encode (Protected.toJsonBytes
        { alg := signer.algorithm, typ := typ, key := Key.KeyId vm })
      ++ 46 :: b64Encode (ser payloadV)))
    payloadV jwk rfl
    (toJsonBytes_keyid_lt signer.algorithm typ vm hvmb)
    hpayload (hsig _) hres (hmatch _) hserdes
  exact ⟨_, hdec, rfl⟩

/-- C6 witness: the round trip at concrete inputs, for an EdDSA signer and
an ECDSA-secp256k1 signer sharing key material with the sample resolver:
both compact tokens decode back to the original payload bytes. -/
theorem c6_round_trip_witness :
    (∃ out, encode (fun t : Bytes => t) Typ.Jwt (ascii "p1") edSigner = Except.ok out
      ∧ ∃ jwt : Jwt Bytes, decode some idealPrims out c6Resolver = Except.ok jwt
          ∧ jwt.claims = ascii "p1")
    ∧ (∃ out, encode (fun t : Bytes => t) Typ.Jwt (ascii "p2") esSigner = Except.ok out
      ∧ ∃ jwt : Jwt Bytes, decode some idealPrims out c6Resolver = Except.ok jwt
          ∧ jwt.claims = ascii "p2") := by
  constructor
  · refine c6_round_trip (fun t => t) some idealPrims Typ.Jwt (ascii "p1") edSigner
      c6Resolver (ascii "k") (fun m => sigEd key32 m) edJwk rfl rfl (fun m => rfl)
      (by rfl) ?_ (by decide) (by decide) ?_
    · intro m
      show PublicKeyJwk.verify_eddsa idealPrims edJwk m (sigEd key32 m) = Except.ok ()
      unfold PublicKeyJwk.verify_eddsa
      have hx : b64Decode edJwk.x = some key32 := by rfl
      rw [hx]
      dsimp only
      rw [if_pos (by decide : (key32 : Bytes).length = 32)]
      rw [if_pos (show idealPrims.ed25519KeyValid key32 = true from rfl)]
      rw [if_pos (by simp [sigEd, fit_length] : (sigEd key32 m).length = 64)]
      rw [if_pos (by simp [idealPrims] : idealPrims.ed25519Verify key32 m (sigEd key32 m) = true)]
    · intro m b hb
      refine fit_lt 64 (key32 ++ m.map (fun b => b % 256)) ?_ b hb
      intro x hx
      simp only [key32, List.mem_append, List.mem_replicate, List.mem_map] at hx
      rcases hx with ⟨_, rfl⟩ | ⟨y, _, rfl⟩
      · omega
      · omega
  · refine c6_round_trip (fun t => t) some idealPrims Typ.Jwt (ascii "p2") esSigner
      c6Resolver (ascii "e") (fun _ => esSig) esJwk rfl rfl (fun m => rfl)
      (by rfl) ?_ (by decide) (by decide) ?_
    · intro m
      show PublicKeyJwk.verify_es256k idealPrims esJwk m esSig = Except.ok ()
      rfl
    · intro m b hb
      have : ∀ x ∈ esSig, x < 256 := by decide
      exact this b hb

end Infosec
